import Mathlib

/-!
# gemmlowp `SSEKernel12x4Depth2` (internal/kernel_SSE.h)

A shallow embedding of `SSEKernel12x4Depth2::Run`, the hand-written SSE4.1
micro-kernel that multiplies a packed 12 x depth block of unsigned bytes by a
packed depth x 4 block and stores (or adds) the 12 x 4 block of 32-bit sums
into a destination tile.

The embedding follows the inline assembly instruction by instruction:

* an `xmm` register is four 32-bit lanes (`Xmm`), each a natural number
  below `2^32`; 16-bit words are the low and high halves of a lane;
* the operand panels are byte lists read through bounds-checked 8-byte loads;
* the destination is a map from `int32` element index (relative to `dst_ptr`)
  to the signed value stored there; `dst_ptr` itself is kept as a number so
  that the 16-byte alignment demanded by `paddd` with a memory operand can be
  checked;
* the `decq` / `jnz` loop is a total function on the 64-bit counter.
-/

namespace gemmlowp

/-! ## Data model -/

/-- Packed operand panel: the bytes behind a `const std::uint8_t*`. -/
abbrev Panel := List (Fin 256)

/-- Destination memory: the `std::int32_t` value at each element index,
counted from `dst_ptr`. -/
abbrev Mem := Int → Int

/-- Ways a call can stop without completing. -/
inductive Fault where
  /-- The check `assert(dst_row_stride == 1)` failed (debug builds only). -/
  | assertion_failed
  /-- A `pmovzxbw` load reached outside the operand panel. -/
  | panel_read_out_of_bounds
  /-- A 128-bit memory operand of `paddd` was not 16-byte aligned (#GP). -/
  | misaligned_m128
  deriving DecidableEq, Repr

/-- A 128-bit vector register as four 32-bit lanes, lane 0 least significant. -/
structure Xmm where
  d0 : Nat
  d1 : Nat
  d2 : Nat
  d3 : Nat
  deriving DecidableEq, Repr

/-- Lane `k` of a register (`k` taken in `0..3`). -/
def Xmm.lane (x : Xmm) : Nat → Nat
  | 0 => x.d0
  | 1 => x.d1
  | 2 => x.d2
  | _ => x.d3

/-- The byte at offset `off` of a panel, as a number; `0` past the end (loads
check the bound before they read). -/
def byteAt (p : Panel) (off : Nat) : Nat :=
  match p[off]? with
  | some b => b.val
  | none => 0

/-- Modelled from the spec: `Format::kDepth` of `kernel.h` (not part of the
sources at hand), the depth of the `CellFormat<4, 2, WidthMajor>` cells, which
the spec calls the depth unit, "here 2". -/
def kDepth : Int := 2

/-! ## Instructions -/

/-- Value of a 16-bit word as a signed integer. -/
def sx16 (w : Nat) : Int :=
  if w % 65536 < 32768 then (w % 65536 : Nat) else ((w % 65536 : Nat) : Int) - 65536

/-- Bit pattern of an integer as an unsigned 32-bit lane. -/
def toLane (v : Int) : Nat := (v % 4294967296).toNat

/-- Value of a 32-bit lane as a `std::int32_t`. -/
def toInt32 (d : Nat) : Int :=
  if d % 4294967296 < 2147483648 then (d % 4294967296 : Nat)
  else ((d % 4294967296 : Nat) : Int) - 4294967296

/-- Wrap to a signed 64-bit register value. -/
def wrap64 (x : Int) : Int :=
  (x + 9223372036854775808) % 18446744073709551616 - 9223372036854775808

/-- Instruction `pxor %xmm, %xmm`: clear a register. -/
def pxor_self : Xmm := ⟨0, 0, 0, 0⟩

/-- One 32-bit lane of `pmovzxbw`: two consecutive bytes zero-extended to two
16-bit words. -/
def zxLane (p : Panel) (off : Nat) : Nat :=
  byteAt p off + 65536 * byteAt p (off + 1)

/-- Instruction `pmovzxbw off(%ptr), %xmm`: load 8 bytes and zero-extend each to a 16-bit
word. The load faults when the 8 bytes are not all inside the panel. -/
def pmovzxbw (p : Panel) (off : Nat) : Except Fault Xmm :=
  if off + 8 ≤ p.length then
    .ok ⟨zxLane p off, zxLane p (off + 2), zxLane p (off + 4), zxLane p (off + 6)⟩
  else .error .panel_read_out_of_bounds

/-- Instruction `pshufd $imm, %src, %dst`: lane `k` of the result is lane
`(imm >> 2k) & 3` of the source. -/
def pshufd (imm : Nat) (src : Xmm) : Xmm :=
  ⟨src.lane (imm % 4), src.lane (imm / 4 % 4), src.lane (imm / 16 % 4), src.lane (imm / 64 % 4)⟩

/-- One lane of `pmaddwd`: the two signed 16x16 products of the low words and
of the high words, added, kept to 32 bits. -/
def pmaddwdLane (a b : Nat) : Nat :=
  toLane (sx16 a * sx16 b + sx16 (a / 65536) * sx16 (b / 65536))

/-- Instruction `pmaddwd %src, %dst`. -/
def pmaddwd (src dst : Xmm) : Xmm :=
  ⟨pmaddwdLane dst.d0 src.d0, pmaddwdLane dst.d1 src.d1,
   pmaddwdLane dst.d2 src.d2, pmaddwdLane dst.d3 src.d3⟩

/-- Instruction `paddd %src, %dst`: lane-wise addition modulo `2^32`. -/
def paddd (src dst : Xmm) : Xmm :=
  ⟨(dst.d0 + src.d0) % 4294967296, (dst.d1 + src.d1) % 4294967296,
   (dst.d2 + src.d2) % 4294967296, (dst.d3 + src.d3) % 4294967296⟩

/-- The four `int32` elements at byte offset `off` from `dst_ptr`, as a
register. -/
def load128 (dst : Mem) (off : Int) : Xmm :=
  ⟨toLane (dst (off / 4)), toLane (dst (off / 4 + 1)),
   toLane (dst (off / 4 + 2)), toLane (dst (off / 4 + 3))⟩

/-- Instruction `paddd off(%dst_ptr), %xmm`: the legacy SSE form with a 128-bit memory
source, which raises #GP unless the address is 16-byte aligned. -/
def paddd_m128 (dst_ptr : Nat) (dst : Mem) (off : Int) (x : Xmm) : Except Fault Xmm :=
  if ((dst_ptr : Int) + off) % 16 = 0 then .ok (paddd (load128 dst off) x)
  else .error .misaligned_m128

/-- Instruction `movdqu %xmm, off(%dst_ptr)`: store four lanes to four consecutive
elements; no alignment is required. -/
def movdqu (x : Xmm) (dst : Mem) (off : Int) : Mem := fun idx =>
  if idx = off / 4 then toInt32 x.d0
  else if idx = off / 4 + 1 then toInt32 x.d1
  else if idx = off / 4 + 2 then toInt32 x.d2
  else if idx = off / 4 + 3 then toInt32 x.d3
  else dst idx

/-! ## Machine state -/

/-- Registers live across the loop, with the bookkeeping used to state
properties of the execution itself (`steps`, `lhs_loads`, `rhs_loads`). -/
structure Machine where
  xmm4 : Xmm
  xmm5 : Xmm
  xmm6 : Xmm
  xmm7 : Xmm
  xmm8 : Xmm
  xmm9 : Xmm
  xmm10 : Xmm
  xmm11 : Xmm
  xmm12 : Xmm
  xmm13 : Xmm
  xmm14 : Xmm
  xmm15 : Xmm
  /-- byte offset of `lhs_ptr` from the start of the lhs panel -/
  lhs_ptr : Nat
  /-- byte offset of `rhs_ptr` from the start of the rhs panel -/
  rhs_ptr : Nat
  /-- the 64-bit loop counter, as an unsigned value -/
  run_depth_cells : Nat
  /-- number of executions of the loop body so far -/
  steps : Nat
  /-- start offsets of the 8-byte loads from the lhs panel, oldest first -/
  lhs_loads : List Nat
  /-- start offsets of the 8-byte loads from the rhs panel, oldest first -/
  rhs_loads : List Nat

/-- What a completed call leaves behind. -/
structure Outcome where
  dst : Mem
  steps : Nat
  lhs_loads : List Nat
  rhs_loads : List Nat

/-! ## The kernel -/

/-- Lines 107-155: the body of `outerLoop`, one depth unit of both panels. -/
def outerLoopBody (lhs rhs : Panel) (s : Machine) : Except Fault Machine :=
  -- RHS cell to xmm1
  match pmovzxbw rhs s.rhs_ptr with
  | .error e => .error e
  | .ok xmm1 =>
  -- LHS cell
  match pmovzxbw lhs (s.lhs_ptr + 0x00) with
  | .error e => .error e
  | .ok xmm0 =>
  let xmm2 := pshufd 0x00 xmm1
  let xmm3 := pshufd 0x55 xmm1
  let xmm2 := pmaddwd xmm0 xmm2
  let xmm3 := pmaddwd xmm0 xmm3
  let xmm4 := paddd xmm2 s.xmm4
  let xmm5 := paddd xmm3 s.xmm5
  let xmm2 := pshufd 0xaa xmm1
  let xmm3 := pshufd 0xff xmm1
  let xmm2 := pmaddwd xmm0 xmm2
  let xmm3 := pmaddwd xmm0 xmm3
  let xmm6 := paddd xmm2 s.xmm6
  let xmm7 := paddd xmm3 s.xmm7
  -- next LHS cell
  match pmovzxbw lhs (s.lhs_ptr + 0x08) with
  | .error e => .error e
  | .ok xmm0 =>
  let xmm2 := pshufd 0x00 xmm1
  let xmm3 := pshufd 0x55 xmm1
  let xmm2 := pmaddwd xmm0 xmm2
  let xmm3 := pmaddwd xmm0 xmm3
  let xmm8 := paddd xmm2 s.xmm8
  let xmm9 := paddd xmm3 s.xmm9
  let xmm2 := pshufd 0xaa xmm1
  let xmm3 := pshufd 0xff xmm1
  let xmm2 := pmaddwd xmm0 xmm2
  let xmm3 := pmaddwd xmm0 xmm3
  let xmm10 := paddd xmm2 s.xmm10
  let xmm11 := paddd xmm3 s.xmm11
  -- next LHS cell
  match pmovzxbw lhs (s.lhs_ptr + 0x10) with
  | .error e => .error e
  | .ok xmm0 =>
  let xmm2 := pshufd 0x00 xmm1
  let xmm3 := pshufd 0x55 xmm1
  let xmm2 := pmaddwd xmm0 xmm2
  let xmm3 := pmaddwd xmm0 xmm3
  let xmm12 := paddd xmm2 s.xmm12
  let xmm13 := paddd xmm3 s.xmm13
  let xmm2 := pshufd 0xaa xmm1
  let xmm3 := pshufd 0xff xmm1
  let xmm2 := pmaddwd xmm0 xmm2
  let xmm3 := pmaddwd xmm0 xmm3
  let xmm14 := paddd xmm2 s.xmm14
  let xmm15 := paddd xmm3 s.xmm15
  .ok { xmm4 := xmm4, xmm5 := xmm5, xmm6 := xmm6, xmm7 := xmm7,
        xmm8 := xmm8, xmm9 := xmm9, xmm10 := xmm10, xmm11 := xmm11,
        xmm12 := xmm12, xmm13 := xmm13, xmm14 := xmm14, xmm15 := xmm15,
        -- addq $0x18, lhs_ptr ; addq $0x08, rhs_ptr
        lhs_ptr := s.lhs_ptr + 0x18,
        rhs_ptr := s.rhs_ptr + 0x08,
        run_depth_cells := s.run_depth_cells,
        steps := s.steps + 1,
        lhs_loads := s.lhs_loads ++ [s.lhs_ptr + 0x00, s.lhs_ptr + 0x08, s.lhs_ptr + 0x10],
        rhs_loads := s.rhs_loads ++ [s.rhs_ptr] }

/-- Instruction `decq` on a 64-bit register holding the unsigned value `c`:
`c - 1` modulo `2^64`. -/
def decq (c : Nat) : Nat := if c = 0 then 18446744073709551615 else c - 1

/-- Lines 104-157: run the body, decrement the counter, and go round again
while the counter is not zero (the test comes after the body). -/
def outerLoop (lhs rhs : Panel) (s : Machine) : Except Fault Machine :=
  match outerLoopBody lhs rhs s with
  | .error e => .error e
  | .ok s1 =>
    if decq s.run_depth_cells = 0 then
      .ok { s1 with run_depth_cells := decq s.run_depth_cells }
    else
      outerLoop lhs rhs { s1 with run_depth_cells := decq s.run_depth_cells }
termination_by decq s.run_depth_cells
decreasing_by
  simp only [decq] at *
  split_ifs at * <;> omega

/-- Lines 165-176: add the destination block into the accumulators. -/
def mergeDst (dst_ptr : Nat) (dst : Mem) (r12 r13 : Int) (s : Machine) :
    Except Fault Machine := do
  let xmm4 ← paddd_m128 dst_ptr dst (0x00) s.xmm4
  let xmm8 ← paddd_m128 dst_ptr dst (0x10) s.xmm8
  let xmm12 ← paddd_m128 dst_ptr dst (0x20) s.xmm12
  let xmm5 ← paddd_m128 dst_ptr dst (0x00 + r12 * 1) s.xmm5
  let xmm9 ← paddd_m128 dst_ptr dst (0x10 + r12 * 1) s.xmm9
  let xmm13 ← paddd_m128 dst_ptr dst (0x20 + r12 * 1) s.xmm13
  let xmm6 ← paddd_m128 dst_ptr dst (0x00 + r12 * 2) s.xmm6
  let xmm10 ← paddd_m128 dst_ptr dst (0x10 + r12 * 2) s.xmm10
  let xmm14 ← paddd_m128 dst_ptr dst (0x20 + r12 * 2) s.xmm14
  let xmm7 ← paddd_m128 dst_ptr dst (0x00 + r13 * 1) s.xmm7
  let xmm11 ← paddd_m128 dst_ptr dst (0x10 + r13 * 1) s.xmm11
  let xmm15 ← paddd_m128 dst_ptr dst (0x20 + r13 * 1) s.xmm15
  return { s with xmm4 := xmm4, xmm5 := xmm5, xmm6 := xmm6, xmm7 := xmm7,
                  xmm8 := xmm8, xmm9 := xmm9, xmm10 := xmm10, xmm11 := xmm11,
                  xmm12 := xmm12, xmm13 := xmm13, xmm14 := xmm14, xmm15 := xmm15 }

/-- Lines 180-191: store the twelve accumulators. -/
def storeDst (dst : Mem) (r12 r13 : Int) (s : Machine) : Mem :=
  let dst := movdqu s.xmm4 dst (0x00)
  let dst := movdqu s.xmm8 dst (0x10)
  let dst := movdqu s.xmm12 dst (0x20)
  let dst := movdqu s.xmm5 dst (0x00 + r12 * 1)
  let dst := movdqu s.xmm9 dst (0x10 + r12 * 1)
  let dst := movdqu s.xmm13 dst (0x20 + r12 * 1)
  let dst := movdqu s.xmm6 dst (0x00 + r12 * 2)
  let dst := movdqu s.xmm10 dst (0x10 + r12 * 2)
  let dst := movdqu s.xmm14 dst (0x20 + r12 * 2)
  let dst := movdqu s.xmm7 dst (0x00 + r13 * 1)
  let dst := movdqu s.xmm11 dst (0x10 + r13 * 1)
  let dst := movdqu s.xmm15 dst (0x20 + r13 * 1)
  dst

/-- The state at `outerLoop` on first entry: accumulators cleared (lines
91-102), both panel pointers at the start, the counter holding
`run_depth_cells`. -/
def initMachine (run_depth_cells : Int) : Machine :=
  { xmm4 := pxor_self, xmm5 := pxor_self, xmm6 := pxor_self, xmm7 := pxor_self,
    xmm8 := pxor_self, xmm9 := pxor_self, xmm10 := pxor_self, xmm11 := pxor_self,
    xmm12 := pxor_self, xmm13 := pxor_self, xmm14 := pxor_self, xmm15 := pxor_self,
    lhs_ptr := 0, rhs_ptr := 0,
    run_depth_cells := (run_depth_cells % 18446744073709551616).toNat,
    steps := 0, lhs_loads := [], rhs_loads := [] }

/-- The method `SSEKernel12x4Depth2::Run`. `ndebug` tells whether `assert` is compiled
out; `dst_ptr` is the address held by the destination pointer and `dst` the
memory behind it; `lhs` and `rhs` are the buffers behind `lhs_ptr` and
`rhs_ptr`. -/
def Run (ndebug : Bool) (dst_ptr : Nat) (dst : Mem) (dst_row_stride dst_col_stride : Int)
    (lhs rhs : Panel) (start_depth run_depth : Int) : Except Fault Outcome :=
  if ndebug = false ∧ dst_row_stride ≠ 1 then .error .assertion_failed else
  let run_depth_cells : Int := Int.tdiv run_depth kDepth
  let dst_col_stride_q : Int := dst_col_stride
  match outerLoop lhs rhs (initMachine run_depth_cells) with
  | .error e => .error e
  | .ok s =>
    -- movq dst_col_stride_q, r12 ; shlq $2, r12 ; leaq (r12,r12,2), r13
    let r12 := dst_col_stride_q
    let r12 := wrap64 (r12 * 4)
    let r13 := wrap64 (r12 + r12 * 2)
    -- test start_depth, start_depth ; jz storeDst
    if start_depth = 0 then
      .ok { dst := storeDst dst r12 r13 s, steps := s.steps,
            lhs_loads := s.lhs_loads, rhs_loads := s.rhs_loads }
    else
      match mergeDst dst_ptr dst r12 r13 s with
      | .error e => .error e
      | .ok s2 =>
        .ok { dst := storeDst dst r12 r13 s2, steps := s2.steps,
              lhs_loads := s2.lhs_loads, rhs_loads := s2.rhs_loads }

/-! ## Reference semantics

The logical operand blocks read through the declared `WidthMajor` cell layout
(`KernelSideFormat<CellFormat<4, 2, WidthMajor>, 3>` for lhs, one such cell for
rhs), and the naive sum of products the kernel is measured against. -/

/-- Logical entry `lhs[i][d]`: the panel byte at offset
`24*(d/2) + 8*(i/4) + 2*(i%4) + d%2`. -/
def lhsAt (lhs : Panel) (i d : Nat) : Nat :=
  byteAt lhs (24 * (d / 2) + 8 * (i / 4) + 2 * (i % 4) + d % 2)

/-- Logical entry `rhs[j][d]`: the panel byte at offset `8*(d/2) + 2*j + d%2`. -/
def rhsAt (rhs : Panel) (j d : Nat) : Nat :=
  byteAt rhs (8 * (d / 2) + 2 * j + d % 2)

/-- Reference product: the exact sum over `d < depth` of `lhs[i][d] * rhs[j][d]`. -/
def refProduct (lhs rhs : Panel) (i j : Nat) : Nat → Nat
  | 0 => 0
  | d + 1 => refProduct lhs rhs i j d + lhsAt lhs i d * rhsAt rhs j d

/-- The accumulator register for rows `4*g .. 4*g+3` and column `c` once
`depth` depth elements have been reduced. -/
def accReg (lhs rhs : Panel) (depth g c : Nat) : Xmm :=
  ⟨refProduct lhs rhs (4 * g) c depth % 4294967296,
   refProduct lhs rhs (4 * g + 1) c depth % 4294967296,
   refProduct lhs rhs (4 * g + 2) c depth % 4294967296,
   refProduct lhs rhs (4 * g + 3) c depth % 4294967296⟩

/-- Offsets of the lhs loads of the first `n` steps. -/
def lhsLoads : Nat → List Nat
  | 0 => []
  | k + 1 => lhsLoads k ++ [24 * k, 24 * k + 8, 24 * k + 16]

/-- Offsets of the rhs loads of the first `n` steps. -/
def rhsLoads : Nat → List Nat
  | 0 => []
  | k + 1 => rhsLoads k ++ [8 * k]

/-- The machine after `k` steps of the loop, with `cnt` left in the counter. -/
def stateAfter (lhs rhs : Panel) (k cnt : Nat) : Machine :=
  { xmm4 := accReg lhs rhs (2 * k) 0 0, xmm5 := accReg lhs rhs (2 * k) 0 1,
    xmm6 := accReg lhs rhs (2 * k) 0 2, xmm7 := accReg lhs rhs (2 * k) 0 3,
    xmm8 := accReg lhs rhs (2 * k) 1 0, xmm9 := accReg lhs rhs (2 * k) 1 1,
    xmm10 := accReg lhs rhs (2 * k) 1 2, xmm11 := accReg lhs rhs (2 * k) 1 3,
    xmm12 := accReg lhs rhs (2 * k) 2 0, xmm13 := accReg lhs rhs (2 * k) 2 1,
    xmm14 := accReg lhs rhs (2 * k) 2 2, xmm15 := accReg lhs rhs (2 * k) 2 3,
    lhs_ptr := 24 * k, rhs_ptr := 8 * k, run_depth_cells := cnt,
    steps := k, lhs_loads := lhsLoads k, rhs_loads := rhsLoads k }


/-- The accumulator register that holds rows `4*g .. 4*g+3` of column `c`
(the register diagram of the source comment). -/
def Machine.reg (s : Machine) (g c : Nat) : Xmm :=
  match g, c with
  | 0, 0 => s.xmm4
  | 0, 1 => s.xmm5
  | 0, 2 => s.xmm6
  | 0, _ => s.xmm7
  | 1, 0 => s.xmm8
  | 1, 1 => s.xmm9
  | 1, 2 => s.xmm10
  | 1, _ => s.xmm11
  | _, 0 => s.xmm12
  | _, 1 => s.xmm13
  | _, 2 => s.xmm14
  | _, _ => s.xmm15

/-- The accumulators after the twelve `paddd` loads of `mergeDst`, when none
of them faults. -/
def mergedState (dst : Mem) (r12 r13 : Int) (s : Machine) : Machine :=
  { s with
    xmm4 := paddd (load128 dst (0x00)) s.xmm4,
    xmm8 := paddd (load128 dst (0x10)) s.xmm8,
    xmm12 := paddd (load128 dst (0x20)) s.xmm12,
    xmm5 := paddd (load128 dst (0x00 + r12 * 1)) s.xmm5,
    xmm9 := paddd (load128 dst (0x10 + r12 * 1)) s.xmm9,
    xmm13 := paddd (load128 dst (0x20 + r12 * 1)) s.xmm13,
    xmm6 := paddd (load128 dst (0x00 + r12 * 2)) s.xmm6,
    xmm10 := paddd (load128 dst (0x10 + r12 * 2)) s.xmm10,
    xmm14 := paddd (load128 dst (0x20 + r12 * 2)) s.xmm14,
    xmm7 := paddd (load128 dst (0x00 + r13 * 1)) s.xmm7,
    xmm11 := paddd (load128 dst (0x10 + r13 * 1)) s.xmm11,
    xmm15 := paddd (load128 dst (0x20 + r13 * 1)) s.xmm15 }

/-- What a call that completes hands back, given the final accumulators. -/
def outcomeOf (dst : Mem) (r12 r13 : Int) (s : Machine) : Outcome :=
  { dst := storeDst dst r12 r13 s, steps := s.steps,
    lhs_loads := s.lhs_loads, rhs_loads := s.rhs_loads }

/-- The destination is 16-byte aligned column by column: `dst_ptr` is a
multiple of 16 and the column stride a multiple of 4 elements. -/
def Aligned (dst_ptr : Nat) (dst_col_stride : Int) : Prop :=
  dst_ptr % 16 = 0 ∧ dst_col_stride % 4 = 0

instance (dst_ptr : Nat) (dst_col_stride : Int) : Decidable (Aligned dst_ptr dst_col_stride) := by
  unfold Aligned
  infer_instance

/-- The argument is a value of the C++ type `int`. -/
def IsInt (x : Int) : Prop := -2147483648 ≤ x ∧ x ≤ 2147483647

instance (x : Int) : Decidable (IsInt x) := by
  unfold IsInt
  infer_instance

/-- A sequence of `movdqu` stores, first to last, given as (register, byte
offset) pairs. -/
def storeList (stores : List (Xmm × Int)) (dst : Mem) : Mem :=
  stores.foldl (fun m p => movdqu p.1 m p.2) dst

/-- The byte offsets of the twelve destination accesses in program order,
each with the accumulators of two machines that sit at that position. -/
def blockSlots (r12 r13 : Int) (t s : Machine) : List (Xmm × Xmm × Int) :=
  [(t.xmm4, s.xmm4, 0x00), (t.xmm8, s.xmm8, 0x10), (t.xmm12, s.xmm12, 0x20),
   (t.xmm5, s.xmm5, 0x00 + r12 * 1), (t.xmm9, s.xmm9, 0x10 + r12 * 1),
   (t.xmm13, s.xmm13, 0x20 + r12 * 1),
   (t.xmm6, s.xmm6, 0x00 + r12 * 2), (t.xmm10, s.xmm10, 0x10 + r12 * 2),
   (t.xmm14, s.xmm14, 0x20 + r12 * 2),
   (t.xmm7, s.xmm7, 0x00 + r13 * 1), (t.xmm11, s.xmm11, 0x10 + r13 * 1),
   (t.xmm15, s.xmm15, 0x20 + r13 * 1)]

/-! ## Tile format -/

/-- Modelled from the spec: the intra-cell ordering of `kernel.h` (not part of
the sources at hand); the source names `CellOrder::WidthMajor`, the spec speaks
of two orderings. -/
inductive CellOrder where
  | DepthMajor
  | WidthMajor
  deriving DecidableEq, Repr

/-- Modelled from the spec: `CellFormat<kWidth, kDepth, kOrder>` of `kernel.h`
(not part of the sources at hand): the cell shape and its ordering. -/
structure CellFormat where
  kWidth : Nat
  kDepth : Nat
  kOrder : CellOrder
  deriving DecidableEq, Repr

/-- Modelled from the spec: the number of bytes of one cell, width times
depth. -/
def CellFormat.kSize (c : CellFormat) : Nat := c.kWidth * c.kDepth

/-- Modelled from the spec: `KernelSideFormat<Cell, kCells>` of `kernel.h` (not
part of the sources at hand): one operand side as a number of cells. -/
structure KernelSideFormat where
  Cell : CellFormat
  kCells : Nat
  deriving DecidableEq, Repr

/-- Modelled from the spec: the side width, the rows or columns of the output
that the side covers: cell width times number of cells. -/
def KernelSideFormat.kWidth (f : KernelSideFormat) : Nat := f.kCells * f.Cell.kWidth

/-- Modelled from the spec: the depth unit of a side, the depth of its
cells. -/
def KernelSideFormat.kDepth (f : KernelSideFormat) : Nat := f.Cell.kDepth

/-- Modelled from the spec: the length of a packed panel of a side for a given
`run_depth`, side width x depth unit x (run_depth / depth unit). -/
def KernelSideFormat.packedSize (f : KernelSideFormat) (run_depth : Nat) : Nat :=
  f.kWidth * f.kDepth * (run_depth / f.kDepth)

/-- Modelled from the spec: `KernelFormat<Lhs, Rhs>` of `kernel.h` (not part of
the sources at hand). -/
structure KernelFormat where
  Lhs : KernelSideFormat
  Rhs : KernelSideFormat
  deriving DecidableEq, Repr

/-- Modelled from the spec: the rows of the output tile, the lhs side width. -/
def KernelFormat.kRows (f : KernelFormat) : Nat := f.Lhs.kWidth

/-- Modelled from the spec: the columns of the output tile, the rhs side
width. -/
def KernelFormat.kCols (f : KernelFormat) : Nat := f.Rhs.kWidth

/-- Modelled from the spec: the depth unit of a kernel format, that of its lhs
side. -/
def KernelFormat.kDepth (f : KernelFormat) : Nat := f.Lhs.kDepth

/-- Lines 37-38, `SSEKernel12x4Depth2::Format`: lhs of 3 cells and rhs of 1 cell,
each cell 4 wide, 2 deep, `WidthMajor`. -/
def Format : KernelFormat :=
  { Lhs := { Cell := { kWidth := 4, kDepth := 2, kOrder := .WidthMajor }, kCells := 3 },
    Rhs := { Cell := { kWidth := 4, kDepth := 2, kOrder := .WidthMajor }, kCells := 1 } }

/-! ## Sample data -/

/-- The packed lhs panel of the 12 x 2 tile with bytes `1, 2, ..., 24`
(`lhs[i][d] = 2*i + d + 1`). -/
def lhsEx : Panel :=
  [1, 2, 3, 4, 5, 6, 7, 8, 9, 10, 11, 12, 13, 14, 15, 16, 17, 18, 19, 20, 21, 22, 23, 24]

/-- The packed rhs panel of the 2 x 4 row-major tile `1, ..., 8`
(`rhs[d][j] = 4*d + j + 1`). -/
def rhsEx : Panel := [1, 5, 2, 6, 3, 7, 4, 8]

/-- A destination holding `100 + idx` at every element index. -/
def dstEx : Mem := fun idx => 100 + idx

/-- A packed lhs panel of depth 4: two depth units of 24 bytes. -/
def lhsEx4 : Panel := lhsEx ++ lhsEx.reverse

/-- A packed rhs panel of depth 4: two depth units of 8 bytes. -/
def rhsEx4 : Panel := rhsEx ++ rhsEx.reverse

/-- A panel of `n` bytes, each 255. -/
def fullPanel (n : Nat) : Panel := List.replicate n 255

/-! ## Arithmetic of the instructions -/

theorem byteAt_lt (p : Panel) (off : Nat) : byteAt p off < 256 := by
  unfold byteAt
  cases h : p[off]? with
  | none => simp
  | some b => exact b.isLt

theorem wrap64_of_range (x : Int) (h1 : -9223372036854775808 ≤ x)
    (h2 : x < 9223372036854775808) : wrap64 x = x := by
  unfold wrap64
  omega

theorem toLane_toInt32 (d : Nat) : toLane (toInt32 d) = d % 4294967296 := by
  unfold toLane toInt32
  split_ifs <;> omega

theorem toLane_lt (v : Int) : toLane v < 4294967296 := by
  unfold toLane
  omega

theorem zxLane_mod (p : Panel) (off : Nat) : zxLane p off % 65536 = byteAt p off := by
  have h1 := byteAt_lt p off
  unfold zxLane
  omega

theorem zxLane_div (p : Panel) (off : Nat) : zxLane p off / 65536 = byteAt p (off + 1) := by
  have h1 := byteAt_lt p off
  unfold zxLane
  omega

theorem sx16_of_lt (w : Nat) (h : w < 32768) : sx16 w = (w : Int) := by
  unfold sx16
  have : w % 65536 = w := by omega
  simp [this, h]

/-- On zero-extended bytes the signed multiply-add is the exact sum of the two
byte products. -/
theorem pmaddwdLane_zx (p q : Panel) (o r : Nat) :
    pmaddwdLane (zxLane p o) (zxLane q r)
      = byteAt p o * byteAt q r + byteAt p (o + 1) * byteAt q (r + 1) := by
  have ha0 := byteAt_lt p o
  have ha1 := byteAt_lt p (o + 1)
  have hb0 := byteAt_lt q r
  have hb1 := byteAt_lt q (r + 1)
  have e1 : sx16 (zxLane p o) = (byteAt p o : Int) := by
    unfold sx16
    rw [zxLane_mod]
    simp [show byteAt p o < 32768 by omega]
  have e2 : sx16 (zxLane q r) = (byteAt q r : Int) := by
    unfold sx16
    rw [zxLane_mod]
    simp [show byteAt q r < 32768 by omega]
  have e3 : sx16 (zxLane p o / 65536) = (byteAt p (o + 1) : Int) := by
    rw [zxLane_div]
    exact sx16_of_lt _ (by omega)
  have e4 : sx16 (zxLane q r / 65536) = (byteAt q (r + 1) : Int) := by
    rw [zxLane_div]
    exact sx16_of_lt _ (by omega)
  unfold pmaddwdLane
  rw [e1, e2, e3, e4]
  have m0 : byteAt p o * byteAt q r ≤ 255 * 255 :=
    Nat.mul_le_mul (by omega) (by omega)
  have m1 : byteAt p (o + 1) * byteAt q (r + 1) ≤ 255 * 255 :=
    Nat.mul_le_mul (by omega) (by omega)
  unfold toLane
  have hcast : ((byteAt p o : Int) * (byteAt q r : Int)
      + (byteAt p (o + 1) : Int) * (byteAt q (r + 1) : Int))
      = ((byteAt p o * byteAt q r + byteAt p (o + 1) * byteAt q (r + 1) : Nat) : Int) := by
    push_cast
    ring
  rw [hcast]
  omega

theorem refProduct_two (lhs rhs : Panel) (i j k : Nat) :
    refProduct lhs rhs i j (2 * k + 2)
      = refProduct lhs rhs i j (2 * k)
        + (byteAt lhs (24 * k + 8 * (i / 4) + 2 * (i % 4))
            * byteAt rhs (8 * k + 2 * j)
          + byteAt lhs (24 * k + 8 * (i / 4) + 2 * (i % 4) + 1)
            * byteAt rhs (8 * k + 2 * j + 1)) := by
  have h0 : (2 * k) / 2 = k := by omega
  have h1 : (2 * k) % 2 = 0 := by omega
  have h2 : (2 * k + 1) / 2 = k := by omega
  have h3 : (2 * k + 1) % 2 = 1 := by omega
  show refProduct lhs rhs i j (2 * k) + lhsAt lhs i (2 * k) * rhsAt rhs j (2 * k)
      + lhsAt lhs i (2 * k + 1) * rhsAt rhs j (2 * k + 1) = _
  unfold lhsAt rhsAt
  rw [h0, h1, h2, h3]
  simp only [Nat.add_zero]
  omega

/-- One lane of one step: adding the multiply-add of the two loaded lanes to
the accumulator advances the reference product by two depth elements. -/
theorem lane_step (lhs rhs : Panel) (k i j o r : Nat)
    (ho : o = 24 * k + 8 * (i / 4) + 2 * (i % 4)) (hr : r = 8 * k + 2 * j) :
    (refProduct lhs rhs i j (2 * k) % 4294967296
        + pmaddwdLane (zxLane rhs r) (zxLane lhs o)) % 4294967296
      = refProduct lhs rhs i j (2 * (k + 1)) % 4294967296 := by
  subst ho hr
  rw [pmaddwdLane_zx, show 2 * (k + 1) = 2 * k + 2 by ring, refProduct_two]
  have c1 := Nat.mul_comm (byteAt rhs (8 * k + 2 * j))
    (byteAt lhs (24 * k + 8 * (i / 4) + 2 * (i % 4)))
  have c2 := Nat.mul_comm (byteAt rhs (8 * k + 2 * j + 1))
    (byteAt lhs (24 * k + 8 * (i / 4) + 2 * (i % 4) + 1))
  omega

theorem acc_step (lhs rhs : Panel) (k g c : Nat) (imm : Nat) (himm : imm = 85 * c) (hc : c < 4) :
    paddd (pmaddwd
            ⟨zxLane lhs (24 * k + 8 * g), zxLane lhs (24 * k + 8 * g + 2),
             zxLane lhs (24 * k + 8 * g + 4), zxLane lhs (24 * k + 8 * g + 6)⟩
            (pshufd imm ⟨zxLane rhs (8 * k), zxLane rhs (8 * k + 2),
                         zxLane rhs (8 * k + 4), zxLane rhs (8 * k + 6)⟩))
          (accReg lhs rhs (2 * k) g c)
      = accReg lhs rhs (2 * (k + 1)) g c := by
  subst himm
  have hlane : ∀ l : Nat, l < 4 →
      (refProduct lhs rhs (4 * g + l) c (2 * k) % 4294967296
        + pmaddwdLane (zxLane rhs (8 * k + 2 * c)) (zxLane lhs (24 * k + 8 * g + 2 * l)))
          % 4294967296
      = refProduct lhs rhs (4 * g + l) c (2 * (k + 1)) % 4294967296 := by
    intro l hl
    exact lane_step lhs rhs k (4 * g + l) c _ _ (by omega) rfl
  have h0 := hlane 0 (by omega)
  have h1 := hlane 1 (by omega)
  have h2 := hlane 2 (by omega)
  have h3 := hlane 3 (by omega)
  simp only [Nat.mul_zero, Nat.add_zero] at h0
  interval_cases c <;>
    simp only [paddd, pmaddwd, pshufd, accReg, Xmm.lane, Xmm.mk.injEq] <;>
    simp_all

theorem outerLoopBody_stateAfter (lhs rhs : Panel) (k cnt : Nat)
    (hl : 24 * (k + 1) ≤ lhs.length) (hr : 8 * (k + 1) ≤ rhs.length) :
    outerLoopBody lhs rhs (stateAfter lhs rhs k cnt) = .ok (stateAfter lhs rhs (k + 1) cnt) := by
  have b0 : 8 * k + 8 ≤ rhs.length := by omega
  have b1 : 24 * k + 0 + 8 ≤ lhs.length := by omega
  have b2 : 24 * k + 8 + 8 ≤ lhs.length := by omega
  have b3 : 24 * k + 16 + 8 ≤ lhs.length := by omega
  have a1 := fun c imm h hc => acc_step lhs rhs k 0 c imm h hc
  have a2 := fun c imm h hc => acc_step lhs rhs k 1 c imm h hc
  have a3 := fun c imm h hc => acc_step lhs rhs k 2 c imm h hc
  simp only [Nat.mul_zero, Nat.mul_one, Nat.add_zero] at a1 a2 a3
  have e16 : ∀ x : Nat, 24 * k + 16 + x = 24 * k + 8 * 2 + x := by intro x; omega
  simp only [outerLoopBody, stateAfter, pmovzxbw, b0, b1, b2, b3, if_true, Nat.add_zero]
  rw [a1 0 0 rfl (by omega), a1 1 85 rfl (by omega), a1 2 170 rfl (by omega),
    a1 3 255 rfl (by omega)]
  rw [a2 0 0 rfl (by omega), a2 1 85 rfl (by omega), a2 2 170 rfl (by omega),
    a2 3 255 rfl (by omega)]
  simp only [e16]
  rw [a3 0 0 rfl (by omega), a3 1 85 rfl (by omega), a3 2 170 rfl (by omega),
    a3 3 255 rfl (by omega)]
  simp only [lhsLoads, rhsLoads]
  have e24 : 24 * k + 24 = 24 * (k + 1) := by omega
  have e8 : 8 * k + 8 = 8 * (k + 1) := by omega
  simp only [e24, e8]


theorem decq_succ (m : Nat) : decq (m + 1) = m := by
  simp [decq]

theorem outerLoop_unfold (lhs rhs : Panel) (s : Machine) :
    outerLoop lhs rhs s =
      match outerLoopBody lhs rhs s with
      | .error e => .error e
      | .ok s1 =>
        if decq s.run_depth_cells = 0 then
          .ok { s1 with run_depth_cells := decq s.run_depth_cells }
        else
          outerLoop lhs rhs { s1 with run_depth_cells := decq s.run_depth_cells } := by
  rw [outerLoop]

theorem outerLoop_step (lhs rhs : Panel) (k cnt : Nat)
    (hl : 24 * (k + 1) ≤ lhs.length) (hr : 8 * (k + 1) ≤ rhs.length) :
    outerLoop lhs rhs (stateAfter lhs rhs k cnt) =
      if decq cnt = 0 then .ok (stateAfter lhs rhs (k + 1) (decq cnt))
      else outerLoop lhs rhs (stateAfter lhs rhs (k + 1) (decq cnt)) := by
  rw [outerLoop_unfold, outerLoopBody_stateAfter lhs rhs k cnt hl hr]
  rfl

/-- The loop from the state after `k` steps: with `decq cnt = m` the body runs
`m + 1` more times, provided the panels hold the bytes of those steps. -/
theorem outerLoop_stateAfter (lhs rhs : Panel) :
    ∀ (m k cnt : Nat), decq cnt = m →
      24 * (k + m + 1) ≤ lhs.length → 8 * (k + m + 1) ≤ rhs.length →
      outerLoop lhs rhs (stateAfter lhs rhs k cnt) = .ok (stateAfter lhs rhs (k + m + 1) 0) := by
  intro m
  induction m with
  | zero =>
    intro k cnt hc hl hr
    rw [outerLoop_step lhs rhs k cnt (by omega) (by omega), hc]
    simp
  | succ m ih =>
    intro k cnt hc hl hr
    rw [outerLoop_step lhs rhs k cnt (by omega) (by omega), hc]
    rw [if_neg (Nat.succ_ne_zero m)]
    rw [ih (k + 1) (m + 1) (decq_succ m) (by omega) (by omega)]
    have e : k + 1 + m + 1 = k + (m + 1) + 1 := by omega
    rw [e]

theorem initMachine_eq (lhs rhs : Panel) (cells : Int) :
    initMachine cells = stateAfter lhs rhs 0 (cells % 18446744073709551616).toNat := by
  rfl

theorem cells_of_run_depth (run_depth : Int) (h2 : 2 ≤ run_depth) (hi : IsInt run_depth) :
    ((Int.tdiv run_depth kDepth) % 18446744073709551616).toNat = (run_depth / 2).toNat := by
  unfold kDepth
  rw [Int.tdiv_eq_ediv (by omega) (by omega)]
  unfold IsInt at hi
  omega

/-- The reduction loop of a call with `run_depth ≥ 2`: it completes after
`run_depth / 2` steps when the panels hold that many depth units. -/
theorem outerLoop_of_run_depth (lhs rhs : Panel) (run_depth : Int)
    (h2 : 2 ≤ run_depth) (hi : IsInt run_depth)
    (hl : 24 * (run_depth / 2).toNat ≤ lhs.length)
    (hr : 8 * (run_depth / 2).toNat ≤ rhs.length) :
    outerLoop lhs rhs (initMachine (Int.tdiv run_depth kDepth))
      = .ok (stateAfter lhs rhs (run_depth / 2).toNat 0) := by
  rw [initMachine_eq lhs rhs, cells_of_run_depth run_depth h2 hi]
  obtain ⟨m, hm⟩ : ∃ m : Nat, (run_depth / 2).toNat = m + 1 :=
    ⟨(run_depth / 2).toNat - 1, by omega⟩
  rw [hm] at hl hr ⊢
  have := outerLoop_stateAfter lhs rhs m 0 (m + 1) (decq_succ m) (by omega) (by omega)
  rw [this]
  congr 2
  omega

theorem regs_of_stride (A : Int) (hA : IsInt A) :
    wrap64 (A * 4) = 4 * A ∧ wrap64 (4 * A + 4 * A * 2) = 12 * A := by
  unfold IsInt at hA
  constructor
  · rw [wrap64_of_range _ (by omega) (by omega)]
    ring
  · rw [wrap64_of_range _ (by omega) (by omega)]
    ring

theorem paddd_m128_aligned (dst_ptr : Nat) (dst : Mem) (off : Int) (x : Xmm)
    (h : ((dst_ptr : Int) + off) % 16 = 0) :
    paddd_m128 dst_ptr dst off x = .ok (paddd (load128 dst off) x) := by
  unfold paddd_m128
  rw [if_pos h]

theorem mergeDst_aligned (dst_ptr : Nat) (dst : Mem) (A : Int) (s : Machine)
    (hal : Aligned dst_ptr A) :
    mergeDst dst_ptr dst (4 * A) (12 * A) s = .ok (mergedState dst (4 * A) (12 * A) s) := by
  obtain ⟨h1, h2⟩ := hal
  simp only [mergeDst,
    paddd_m128_aligned dst_ptr dst (0x00) _ (by omega),
    paddd_m128_aligned dst_ptr dst (0x10) _ (by omega),
    paddd_m128_aligned dst_ptr dst (0x20) _ (by omega),
    paddd_m128_aligned dst_ptr dst (0x00 + 4 * A * 1) _ (by omega),
    paddd_m128_aligned dst_ptr dst (0x10 + 4 * A * 1) _ (by omega),
    paddd_m128_aligned dst_ptr dst (0x20 + 4 * A * 1) _ (by omega),
    paddd_m128_aligned dst_ptr dst (0x00 + 4 * A * 2) _ (by omega),
    paddd_m128_aligned dst_ptr dst (0x10 + 4 * A * 2) _ (by omega),
    paddd_m128_aligned dst_ptr dst (0x20 + 4 * A * 2) _ (by omega),
    paddd_m128_aligned dst_ptr dst (0x00 + 12 * A * 1) _ (by omega),
    paddd_m128_aligned dst_ptr dst (0x10 + 12 * A * 1) _ (by omega),
    paddd_m128_aligned dst_ptr dst (0x20 + 12 * A * 1) _ (by omega),
    bind, Except.bind, pure, Except.pure, mergedState]

/-- A call in overwrite mode with `run_depth ≥ 2` completes and stores the
accumulators of `run_depth / 2` steps. -/
theorem Run_overwrite_eq (ndebug : Bool) (dst_ptr : Nat) (dst : Mem) (A : Int)
    (lhs rhs : Panel) (run_depth : Int)
    (h2 : 2 ≤ run_depth) (hi : IsInt run_depth) (hA : IsInt A)
    (hl : 24 * (run_depth / 2).toNat ≤ lhs.length)
    (hr : 8 * (run_depth / 2).toNat ≤ rhs.length) :
    Run ndebug dst_ptr dst 1 A lhs rhs 0 run_depth
      = .ok (outcomeOf dst (4 * A) (12 * A) (stateAfter lhs rhs (run_depth / 2).toNat 0)) := by
  obtain ⟨e12, e13⟩ := regs_of_stride A hA
  unfold Run
  simp only [ne_eq, not_true_eq_false, and_false, if_false,
    outerLoop_of_run_depth lhs rhs run_depth h2 hi hl hr, e12, e13, if_true]
  rfl

/-- A call in merge mode with `run_depth ≥ 2` on an aligned destination
completes and stores the accumulators added to the destination block. -/
theorem Run_merge_eq (ndebug : Bool) (dst_ptr : Nat) (dst : Mem) (A : Int)
    (lhs rhs : Panel) (start_depth run_depth : Int) (hs : start_depth ≠ 0)
    (h2 : 2 ≤ run_depth) (hi : IsInt run_depth) (hA : IsInt A) (hal : Aligned dst_ptr A)
    (hl : 24 * (run_depth / 2).toNat ≤ lhs.length)
    (hr : 8 * (run_depth / 2).toNat ≤ rhs.length) :
    Run ndebug dst_ptr dst 1 A lhs rhs start_depth run_depth
      = .ok (outcomeOf dst (4 * A) (12 * A)
          (mergedState dst (4 * A) (12 * A) (stateAfter lhs rhs (run_depth / 2).toNat 0))) := by
  obtain ⟨e12, e13⟩ := regs_of_stride A hA
  unfold Run
  simp only [ne_eq, not_true_eq_false, and_false, if_false,
    outerLoop_of_run_depth lhs rhs run_depth h2 hi hl hr, e12, e13, hs,
    mergeDst_aligned dst_ptr dst A _ hal]
  rfl


theorem movdqu_hit (l : Nat) (hl : l < 4) {x : Xmm} {dst : Mem} {off idx : Int}
    (h : idx = off / 4 + l) : movdqu x dst off idx = toInt32 (x.lane l) := by
  subst h
  unfold movdqu
  interval_cases l <;> simp [Xmm.lane]

theorem movdqu_miss {x : Xmm} {dst : Mem} {off idx : Int}
    (h : idx < off / 4 ∨ off / 4 + 4 ≤ idx) : movdqu x dst off idx = dst idx := by
  unfold movdqu
  rw [if_neg (by omega), if_neg (by omega), if_neg (by omega), if_neg (by omega)]

/-- With columns that do not overlap, the element at row `4*g + l` of column
`c` ends up holding lane `l` of the register for `(g, c)`. -/
theorem storeDst_block (dst : Mem) (A : Int) (s : Machine) (hA : 12 ≤ A ∨ A ≤ -12)
    (g c l : Nat) (hg : g < 3) (hc : c < 4) (hl : l < 4) :
    storeDst dst (4 * A) (12 * A) s (((4 * g + l : Nat) : Int) + (c : Int) * A)
      = toInt32 ((s.reg g c).lane l) := by
  interval_cases g <;> interval_cases c <;>
    simp only [storeDst, Machine.reg] <;>
    (repeat (rw [movdqu_miss]; rotate_left; (push_cast; omega))) <;>
    (rw [movdqu_hit l hl]; push_cast; omega)


theorem stateAfter_reg_lane (lhs rhs : Panel) (n cnt g c l : Nat)
    (hg : g < 3) (hc : c < 4) (hl : l < 4) :
    ((stateAfter lhs rhs n cnt).reg g c).lane l
      = refProduct lhs rhs (4 * g + l) c (2 * n) % 4294967296 := by
  interval_cases g <;> interval_cases c <;> interval_cases l <;> rfl

theorem merged_reg_lane (dst : Mem) (A : Int) (s : Machine) (g c l : Nat)
    (hg : g < 3) (hc : c < 4) (hl : l < 4) :
    ((mergedState dst (4 * A) (12 * A) s).reg g c).lane l
      = ((s.reg g c).lane l
          + toLane (dst (((4 * g + l : Nat) : Int) + (c : Int) * A))) % 4294967296 := by
  have e : ∀ a b : Int, a = b → toLane (dst a) = toLane (dst b) := by
    intro a b h
    rw [h]
  interval_cases g <;> interval_cases c <;> interval_cases l <;>
    simp only [mergedState, Machine.reg, paddd, load128, Xmm.lane] <;>
    congr 2 <;> apply e <;> push_cast <;> omega

theorem toLane_add (v : Int) (p : Nat) :
    (p % 4294967296 + toLane v) % 4294967296 = toLane (v + (p : Int)) := by
  unfold toLane
  omega

theorem toInt32_mod (d : Nat) : toInt32 (d % 4294967296) = toInt32 d := by
  unfold toInt32
  simp

theorem row_split (i : Nat) : i = 4 * (i / 4) + i % 4 := by omega

/-- Overwrite mode on columns that do not overlap: every element of the block
holds the reference product, reduced to 32 bits. -/
theorem Run_overwrite_block (ndebug : Bool) (dst_ptr : Nat) (dst : Mem) (A : Int)
    (lhs rhs : Panel) (run_depth : Int)
    (hpos : 0 < run_depth) (heven : run_depth % 2 = 0) (hi : IsInt run_depth)
    (hA : IsInt A) (hno : 12 ≤ |A|)
    (hl : 12 * run_depth.toNat ≤ lhs.length) (hr : 4 * run_depth.toNat ≤ rhs.length) :
    ∃ out, Run ndebug dst_ptr dst 1 A lhs rhs 0 run_depth = .ok out ∧
      ∀ i j : Nat, i < 12 → j < 4 →
        out.dst ((i : Int) + (j : Int) * A)
          = toInt32 (refProduct lhs rhs i j run_depth.toNat % 4294967296) := by
  have hn : 2 * (run_depth / 2).toNat = run_depth.toNat := by omega
  refine ⟨_, Run_overwrite_eq ndebug dst_ptr dst A lhs rhs run_depth (by omega) hi hA
    (by omega) (by omega), ?_⟩
  intro i j hi12 hj4
  have hA2 : 12 ≤ A ∨ A ≤ -12 := by
    rcases abs_cases A with ⟨h, _⟩ | ⟨h, _⟩ <;> omega
  have hs := storeDst_block dst A (stateAfter lhs rhs (run_depth / 2).toNat 0) hA2
    (i / 4) j (i % 4) (by omega) hj4 (by omega)
  rw [← row_split i] at hs
  show storeDst dst (4 * A) (12 * A) _ _ = _
  rw [hs, stateAfter_reg_lane lhs rhs _ _ _ _ _ (by omega) hj4 (by omega), ← row_split i, hn]

/-- Merge mode on an aligned destination whose columns do not overlap: every
element of the block holds its old value plus the reference product, reduced
to 32 bits. -/
theorem Run_merge_block (ndebug : Bool) (dst_ptr : Nat) (dst : Mem) (A : Int)
    (lhs rhs : Panel) (start_depth run_depth : Int) (hs : start_depth ≠ 0)
    (hpos : 0 < run_depth) (heven : run_depth % 2 = 0) (hi : IsInt run_depth)
    (hA : IsInt A) (hno : 12 ≤ |A|) (hal : Aligned dst_ptr A)
    (hl : 12 * run_depth.toNat ≤ lhs.length) (hr : 4 * run_depth.toNat ≤ rhs.length) :
    ∃ out, Run ndebug dst_ptr dst 1 A lhs rhs start_depth run_depth = .ok out ∧
      ∀ i j : Nat, i < 12 → j < 4 →
        out.dst ((i : Int) + (j : Int) * A)
          = toInt32 (toLane (dst ((i : Int) + (j : Int) * A)
              + (refProduct lhs rhs i j run_depth.toNat : Int))) := by
  have hn : 2 * (run_depth / 2).toNat = run_depth.toNat := by omega
  refine ⟨_, Run_merge_eq ndebug dst_ptr dst A lhs rhs start_depth run_depth hs (by omega) hi hA
    hal (by omega) (by omega), ?_⟩
  intro i j hi12 hj4
  have hA2 : 12 ≤ A ∨ A ≤ -12 := by
    rcases abs_cases A with ⟨h, _⟩ | ⟨h, _⟩ <;> omega
  have hs := storeDst_block dst A
    (mergedState dst (4 * A) (12 * A) (stateAfter lhs rhs (run_depth / 2).toNat 0)) hA2
    (i / 4) j (i % 4) (by omega) hj4 (by omega)
  have hm := merged_reg_lane dst A (stateAfter lhs rhs (run_depth / 2).toNat 0)
    (i / 4) j (i % 4) (by omega) hj4 (by omega)
  rw [← row_split i] at hs hm
  show storeDst dst (4 * A) (12 * A) _ _ = _
  rw [hs, hm, stateAfter_reg_lane lhs rhs _ _ _ _ _ (by omega) hj4 (by omega), ← row_split i, hn,
    toLane_add]


theorem paddd_m128_misaligned (dst_ptr : Nat) (dst : Mem) (off : Int) (x : Xmm)
    (h : ((dst_ptr : Int) + off) % 16 ≠ 0) :
    paddd_m128 dst_ptr dst off x = .error .misaligned_m128 := by
  unfold paddd_m128
  rw [if_neg h]

/-- On a destination that is not aligned column by column one of the first
four `paddd` loads faults. -/
theorem mergeDst_misaligned (dst_ptr : Nat) (dst : Mem) (A : Int) (s : Machine)
    (hal : ¬ Aligned dst_ptr A) :
    mergeDst dst_ptr dst (4 * A) (12 * A) s = .error .misaligned_m128 := by
  unfold Aligned at hal
  by_cases h1 : dst_ptr % 16 = 0
  · have h2 : ¬ A % 4 = 0 := fun h => hal ⟨h1, h⟩
    simp only [mergeDst,
      paddd_m128_aligned dst_ptr dst (0x00) _ (by omega),
      paddd_m128_aligned dst_ptr dst (0x10) _ (by omega),
      paddd_m128_aligned dst_ptr dst (0x20) _ (by omega),
      paddd_m128_misaligned dst_ptr dst (0x00 + 4 * A * 1) _ (by omega),
      bind, Except.bind]
  · simp only [mergeDst, paddd_m128_misaligned dst_ptr dst (0x00) _ (by omega),
      bind, Except.bind]

/-- A call in merge mode on a destination that is not aligned stops at a
`paddd` load, before anything is stored. -/
theorem Run_merge_misaligned (ndebug : Bool) (dst_ptr : Nat) (dst : Mem) (A : Int)
    (lhs rhs : Panel) (start_depth run_depth : Int) (hs : start_depth ≠ 0)
    (h2 : 2 ≤ run_depth) (hi : IsInt run_depth) (hA : IsInt A) (hal : ¬ Aligned dst_ptr A)
    (hl : 24 * (run_depth / 2).toNat ≤ lhs.length)
    (hr : 8 * (run_depth / 2).toNat ≤ rhs.length) :
    Run ndebug dst_ptr dst 1 A lhs rhs start_depth run_depth = .error .misaligned_m128 := by
  obtain ⟨e12, e13⟩ := regs_of_stride A hA
  unfold Run
  simp only [ne_eq, not_true_eq_false, and_false, if_false,
    outerLoop_of_run_depth lhs rhs run_depth h2 hi hl hr, e12, e13, hs,
    mergeDst_misaligned dst_ptr dst A _ hal]

theorem outside_window (A idx : Int)
    (h : ¬ ∃ i j : Nat, i < 12 ∧ j < 4 ∧ idx = (i : Int) * 1 + (j : Int) * A)
    (g c : Nat) (hg : g < 3) (hc : c < 4) :
    idx < 4 * (g : Int) + (c : Int) * A ∨ 4 * (g : Int) + (c : Int) * A + 4 ≤ idx := by
  by_contra hcon
  apply h
  refine ⟨4 * g + (idx - (4 * (g : Int) + (c : Int) * A)).toNat, c, by omega, hc, ?_⟩
  push_cast
  omega

/-- The stores touch nothing outside the 12 x 4 block, whatever the column
stride. -/
theorem storeDst_frame (dst : Mem) (A : Int) (s : Machine) (idx : Int)
    (h : ¬ ∃ i j : Nat, i < 12 ∧ j < 4 ∧ idx = (i : Int) * 1 + (j : Int) * A) :
    storeDst dst (4 * A) (12 * A) s idx = dst idx := by
  have w := outside_window A idx h
  have w00 : idx < (0x00 : Int) / 4 ∨ (0x00 : Int) / 4 + 4 ≤ idx := by
    have := w 0 0 (by omega) (by omega); omega
  have w10 : idx < (0x10 : Int) / 4 ∨ (0x10 : Int) / 4 + 4 ≤ idx := by
    have := w 1 0 (by omega) (by omega); omega
  have w20 : idx < (0x20 : Int) / 4 ∨ (0x20 : Int) / 4 + 4 ≤ idx := by
    have := w 2 0 (by omega) (by omega); omega
  have w01 : idx < (0x00 + 4 * A * 1) / 4 ∨ (0x00 + 4 * A * 1) / 4 + 4 ≤ idx := by
    have := w 0 1 (by omega) (by omega); omega
  have w11 : idx < (0x10 + 4 * A * 1) / 4 ∨ (0x10 + 4 * A * 1) / 4 + 4 ≤ idx := by
    have := w 1 1 (by omega) (by omega); omega
  have w21 : idx < (0x20 + 4 * A * 1) / 4 ∨ (0x20 + 4 * A * 1) / 4 + 4 ≤ idx := by
    have := w 2 1 (by omega) (by omega); omega
  have w02 : idx < (0x00 + 4 * A * 2) / 4 ∨ (0x00 + 4 * A * 2) / 4 + 4 ≤ idx := by
    have := w 0 2 (by omega) (by omega); omega
  have w12 : idx < (0x10 + 4 * A * 2) / 4 ∨ (0x10 + 4 * A * 2) / 4 + 4 ≤ idx := by
    have := w 1 2 (by omega) (by omega); omega
  have w22 : idx < (0x20 + 4 * A * 2) / 4 ∨ (0x20 + 4 * A * 2) / 4 + 4 ≤ idx := by
    have := w 2 2 (by omega) (by omega); omega
  have w03 : idx < (0x00 + 12 * A * 1) / 4 ∨ (0x00 + 12 * A * 1) / 4 + 4 ≤ idx := by
    have := w 0 3 (by omega) (by omega); omega
  have w13 : idx < (0x10 + 12 * A * 1) / 4 ∨ (0x10 + 12 * A * 1) / 4 + 4 ≤ idx := by
    have := w 1 3 (by omega) (by omega); omega
  have w23 : idx < (0x20 + 12 * A * 1) / 4 ∨ (0x20 + 12 * A * 1) / 4 + 4 ≤ idx := by
    have := w 2 3 (by omega) (by omega); omega
  simp only [storeDst]
  rw [movdqu_miss w23, movdqu_miss w13, movdqu_miss w03, movdqu_miss w22, movdqu_miss w12,
    movdqu_miss w02, movdqu_miss w21, movdqu_miss w11, movdqu_miss w01, movdqu_miss w20,
    movdqu_miss w10, movdqu_miss w00]


theorem storeList_snoc (l : List (Xmm × Int)) (a : Xmm × Int) (dst : Mem) :
    storeList (l ++ [a]) dst = movdqu a.1 (storeList l dst) a.2 := by
  simp [storeList, List.foldl_append]

theorem load128_lane (dst : Mem) (off : Int) (k : Nat) (hk : k < 4) :
    (load128 dst off).lane k = toLane (dst (off / 4 + k)) := by
  interval_cases k <;> simp [load128, Xmm.lane]

theorem paddd_lane (a b : Xmm) (k : Nat) :
    (paddd a b).lane k = (b.lane k + a.lane k) % 4294967296 := by
  unfold paddd Xmm.lane
  split <;> rfl

theorem toInt32_congr (a b : Nat) (h : a % 4294967296 = b % 4294967296) :
    toInt32 a = toInt32 b := by
  unfold toInt32
  rw [h]

/-- Storing, then merging and storing again at the same offsets, leaves at
every element what one store of the lane-wise sums would leave: each element
is last written from the register whose load read it. -/
theorem storeList_merge (L : List (Xmm × Xmm × Int)) (dst : Mem) (idx : Int) :
    ∀ D : Mem, D idx = storeList (L.map fun p => (p.1, p.2.2)) dst idx →
      storeList (L.map fun p => (paddd (load128 D p.2.2) p.2.1, p.2.2)) D idx
        = storeList (L.map fun p => (paddd p.1 p.2.1, p.2.2)) dst idx := by
  induction L using List.reverseRecOn with
  | nil =>
    intro D hD
    simpa [storeList] using hD
  | append_singleton l a ih =>
    intro D hD
    simp only [List.map_append, List.map_cons, List.map_nil, storeList_snoc] at hD ⊢
    by_cases hw : a.2.2 / 4 ≤ idx ∧ idx < a.2.2 / 4 + 4
    · obtain ⟨k, hk, rfl⟩ : ∃ k : Nat, k < 4 ∧ idx = a.2.2 / 4 + k :=
        ⟨(idx - a.2.2 / 4).toNat, by omega, by omega⟩
      rw [movdqu_hit k hk rfl] at hD
      rw [movdqu_hit k hk rfl, movdqu_hit k hk rfl, paddd_lane, paddd_lane,
        load128_lane _ _ _ hk, hD, toLane_toInt32]
      apply toInt32_congr
      omega
    · have hm : idx < a.2.2 / 4 ∨ a.2.2 / 4 + 4 ≤ idx := by omega
      rw [movdqu_miss hm] at hD
      rw [movdqu_miss hm, movdqu_miss hm]
      exact ih D hD


theorem byteAt_take (p : Panel) (m o : Nat) (h : o < m) : byteAt (p.take m) o = byteAt p o := by
  unfold byteAt
  rw [List.getElem?_take_of_lt h]

theorem byteAt_drop (p : Panel) (m o : Nat) : byteAt (p.drop m) o = byteAt p (m + o) := by
  unfold byteAt
  rw [List.getElem?_drop]

theorem refProduct_take (lhs rhs : Panel) (i j n : Nat) (hi : i < 12) (hj : j < 4) :
    ∀ d : Nat, d ≤ 2 * n →
      refProduct (lhs.take (12 * (2 * n))) (rhs.take (4 * (2 * n))) i j d
        = refProduct lhs rhs i j d := by
  intro d
  induction d with
  | zero => intro _; rfl
  | succ d ih =>
    intro hd
    show refProduct _ _ i j d + lhsAt _ i d * rhsAt _ j d
      = refProduct lhs rhs i j d + lhsAt lhs i d * rhsAt rhs j d
    rw [ih (by omega)]
    unfold lhsAt rhsAt
    rw [byteAt_take _ _ _ (by omega), byteAt_take _ _ _ (by omega)]

theorem refProduct_drop (lhs rhs : Panel) (i j n : Nat) :
    ∀ d : Nat,
      refProduct lhs rhs i j (2 * n + d)
        = refProduct lhs rhs i j (2 * n)
          + refProduct (lhs.drop (12 * (2 * n))) (rhs.drop (4 * (2 * n))) i j d := by
  intro d
  induction d with
  | zero => rfl
  | succ d ih =>
    show refProduct lhs rhs i j (2 * n + d) + lhsAt lhs i (2 * n + d) * rhsAt rhs j (2 * n + d)
      = refProduct lhs rhs i j (2 * n)
        + (refProduct _ _ i j d + lhsAt _ i d * rhsAt _ j d)
    rw [ih]
    unfold lhsAt rhsAt
    rw [byteAt_drop, byteAt_drop]
    have e1 : 24 * ((2 * n + d) / 2) + 8 * (i / 4) + 2 * (i % 4) + (2 * n + d) % 2
        = 12 * (2 * n) + (24 * (d / 2) + 8 * (i / 4) + 2 * (i % 4) + d % 2) := by omega
    have e2 : 8 * ((2 * n + d) / 2) + 2 * j + (2 * n + d) % 2
        = 4 * (2 * n) + (8 * (d / 2) + 2 * j + d % 2) := by omega
    rw [e1, e2]
    ring

/-- The reference product over a split depth is the sum of the products over
the two halves of the panels. -/
theorem refProduct_split (lhs rhs : Panel) (i j n1 d : Nat) (hi : i < 12) (hj : j < 4) :
    refProduct lhs rhs i j (2 * n1 + d)
      = refProduct (lhs.take (12 * (2 * n1))) (rhs.take (4 * (2 * n1))) i j (2 * n1)
        + refProduct (lhs.drop (12 * (2 * n1))) (rhs.drop (4 * (2 * n1))) i j d := by
  rw [refProduct_drop, refProduct_take lhs rhs i j n1 hi hj (2 * n1) (le_refl _)]

theorem accReg_split (lhs rhs : Panel) (n1 n2 g c : Nat) (hg : g < 3) (hc : c < 4) :
    paddd (accReg (lhs.take (12 * (2 * n1))) (rhs.take (4 * (2 * n1))) (2 * n1) g c)
        (accReg (lhs.drop (12 * (2 * n1))) (rhs.drop (4 * (2 * n1))) (2 * n2) g c)
      = accReg lhs rhs (2 * (n1 + n2)) g c := by
  have e : 2 * (n1 + n2) = 2 * n1 + 2 * n2 := by ring
  unfold paddd accReg
  simp only [e]
  rw [refProduct_split lhs rhs (4 * g) c n1 (2 * n2) (by omega) hc,
    refProduct_split lhs rhs (4 * g + 1) c n1 (2 * n2) (by omega) hc,
    refProduct_split lhs rhs (4 * g + 2) c n1 (2 * n2) (by omega) hc,
    refProduct_split lhs rhs (4 * g + 3) c n1 (2 * n2) (by omega) hc]
  simp only [Xmm.mk.injEq]
  refine ⟨?_, ?_, ?_, ?_⟩ <;> omega

theorem storeDst_eq_storeList (dst : Mem) (r12 r13 : Int) (t s : Machine) :
    storeDst dst r12 r13 t
      = storeList ((blockSlots r12 r13 t s).map fun p => (p.1, p.2.2)) dst := rfl

/-- A store followed by a merge and a second store at the same strides, at
machine level. -/
theorem storeDst_merge (dst : Mem) (r12 r13 : Int) (t s : Machine) (idx : Int) :
    storeDst (storeDst dst r12 r13 t) r12 r13
        (mergedState (storeDst dst r12 r13 t) r12 r13 s) idx
      = storeList ((blockSlots r12 r13 t s).map fun p => (paddd p.1 p.2.1, p.2.2)) dst idx :=
  storeList_merge (blockSlots r12 r13 t s) dst idx (storeDst dst r12 r13 t) rfl

theorem storeDst_split (dst : Mem) (r12 r13 : Int) (lhs rhs : Panel) (n1 n2 : Nat) (idx : Int) :
    storeDst (storeDst dst r12 r13
          (stateAfter (lhs.take (12 * (2 * n1))) (rhs.take (4 * (2 * n1))) n1 0)) r12 r13
        (mergedState (storeDst dst r12 r13
            (stateAfter (lhs.take (12 * (2 * n1))) (rhs.take (4 * (2 * n1))) n1 0)) r12 r13
          (stateAfter (lhs.drop (12 * (2 * n1))) (rhs.drop (4 * (2 * n1))) n2 0)) idx
      = storeDst dst r12 r13 (stateAfter lhs rhs (n1 + n2) 0) idx := by
  rw [storeDst_merge]
  have h := fun g c hg hc => accReg_split lhs rhs n1 n2 g c hg hc
  simp only [blockSlots, stateAfter, List.map_cons, List.map_nil,
    h 0 0 (by omega) (by omega), h 0 1 (by omega) (by omega), h 0 2 (by omega) (by omega),
    h 0 3 (by omega) (by omega), h 1 0 (by omega) (by omega), h 1 1 (by omega) (by omega),
    h 1 2 (by omega) (by omega), h 1 3 (by omega) (by omega), h 2 0 (by omega) (by omega),
    h 2 1 (by omega) (by omega), h 2 2 (by omega) (by omega), h 2 3 (by omega) (by omega)]
  rfl


/-! ## Overwrite and merge -/

/-- C1. Overwrite mode equals the reference product: with `start_depth = 0`,
`dst_row_stride = 1`, columns that do not overlap and `run_depth` a positive
multiple of 2, the call completes and leaves at `i + j * dst_col_stride` the
sum over `d < run_depth` of `lhs[i][d] * rhs[j][d]` modulo `2^32`, read as a
signed 32-bit value, whatever the destination held before. -/
theorem Run_overwrite_equals_reference (ndebug : Bool) (dst_ptr : Nat) (dst : Mem)
    (dst_col_stride : Int) (lhs rhs : Panel) (run_depth : Int)
    (hpos : 0 < run_depth) (heven : run_depth % 2 = 0) (hi : IsInt run_depth)
    (hcs : IsInt dst_col_stride) (hno : 12 ≤ |dst_col_stride|)
    (hl : 12 * run_depth.toNat ≤ lhs.length) (hr : 4 * run_depth.toNat ≤ rhs.length) :
    ∃ out, Run ndebug dst_ptr dst 1 dst_col_stride lhs rhs 0 run_depth = .ok out ∧
      ∀ i j : Nat, i < 12 → j < 4 →
        out.dst ((i : Int) + (j : Int) * dst_col_stride)
          = toInt32 (refProduct lhs rhs i j run_depth.toNat % 4294967296) :=
  Run_overwrite_block ndebug dst_ptr dst dst_col_stride lhs rhs run_depth hpos heven hi hcs hno
    hl hr

theorem Run_overwrite_equals_reference_witness :
    ∃ out, Run false 4100 dstEx 1 13 lhsEx rhsEx 0 2 = .ok out ∧
      ∀ i j : Nat, i < 12 → j < 4 →
        out.dst ((i : Int) + (j : Int) * 13)
          = toInt32 (refProduct lhsEx rhsEx i j (2 : Int).toNat % 4294967296) :=
  Run_overwrite_equals_reference false 4100 dstEx 13 lhsEx rhsEx 2 (by decide) (by decide)
    (by decide) (by decide) (by decide) (by decide) (by decide)

/-- C2. Merge mode on a destination that is not 16-byte aligned column by
column: with `dst_ptr = 4096`, `dst_col_stride = 13` (columns that do not
overlap), `start_depth = 2` and `run_depth = 2` the call does not add to the
destination; the `paddd` load of column 1, at byte address `4096 + 52`, faults.
The overwrite call on the same destination, strides and panels completes: its
`movdqu` stores go to the very addresses the merge cannot load from. -/
theorem Run_merge_unaligned_faults :
    (2 : Int) ≠ 0 ∧ (12 : Int) ≤ |13| ∧
      Run false 4096 dstEx 1 13 lhsEx rhsEx 2 2 = .error .misaligned_m128 ∧
      ∃ out, Run false 4096 dstEx 1 13 lhsEx rhsEx 0 2 = .ok out :=
  ⟨by decide, by decide,
    Run_merge_misaligned false 4096 dstEx 13 lhsEx rhsEx 2 2 (by decide) (by decide)
      (by decide) (by decide) (by decide) (by decide) (by decide),
    _, Run_overwrite_eq false 4096 dstEx 13 lhsEx rhsEx 2 (by decide) (by decide) (by decide)
      (by decide) (by decide)⟩

/-- Two calls that split the depth, on an aligned destination, against one
call over the whole depth: all three complete and the destinations agree. -/
theorem Run_split_aligned (ndebug : Bool) (dst_ptr : Nat) (dst : Mem)
    (A : Int) (lhs rhs : Panel) (d1 d2 : Int)
    (h1 : 0 < d1) (e1 : d1 % 2 = 0) (h2 : 0 < d2) (e2 : d2 % 2 = 0)
    (hi : IsInt (d1 + d2)) (hA : IsInt A) (hal : Aligned dst_ptr A)
    (hl : 12 * (d1 + d2).toNat ≤ lhs.length) (hr : 4 * (d1 + d2).toNat ≤ rhs.length) :
    ∃ out1 out2 out,
      Run ndebug dst_ptr dst 1 A (lhs.take (12 * d1.toNat)) (rhs.take (4 * d1.toNat)) 0 d1
        = .ok out1 ∧
      Run ndebug dst_ptr out1.dst 1 A (lhs.drop (12 * d1.toNat)) (rhs.drop (4 * d1.toNat))
        d1 d2 = .ok out2 ∧
      Run ndebug dst_ptr dst 1 A lhs rhs 0 (d1 + d2) = .ok out ∧
      out2.dst = out.dst := by
  unfold IsInt at hi
  have t1 : d1.toNat = 2 * (d1 / 2).toNat := by omega
  have t2 : ((d1 + d2) / 2).toNat = (d1 / 2).toNat + (d2 / 2).toNat := by omega
  rw [t1]
  refine ⟨_, _, _,
    Run_overwrite_eq ndebug dst_ptr dst A _ _ d1 (by omega) (by unfold IsInt; omega) hA
      (by rw [List.length_take]; omega) (by rw [List.length_take]; omega),
    Run_merge_eq ndebug dst_ptr _ A _ _ d1 d2 (by omega) (by omega) (by unfold IsInt; omega) hA
      hal (by rw [List.length_drop]; omega) (by rw [List.length_drop]; omega),
    Run_overwrite_eq ndebug dst_ptr dst A lhs rhs (d1 + d2) (by omega) (by unfold IsInt; omega)
      hA (by omega) (by omega), ?_⟩
  funext idx
  rw [t2]
  exact storeDst_split dst (4 * A) (12 * A) lhs rhs (d1 / 2).toNat (d2 / 2).toNat idx

/-- C3. Depth splitting on a destination that is not 16-byte aligned column by
column: with `dst_ptr = 4096`, `dst_col_stride = 13` and `d1 = d2 = 2`, the
first call (`start_depth = 0`, stores only) completes, and so does the single
call over the whole depth, but the second call (`start_depth = d1`), which
merges into the destination the first one wrote, faults at a `paddd` load, so
the split does not reproduce the single call. -/
theorem Run_depth_split_unaligned_faults :
    ∃ out1 out,
      Run false 4096 dstEx 1 13 (lhsEx4.take 24) (rhsEx4.take 8) 0 2 = .ok out1 ∧
      Run false 4096 out1.dst 1 13 (lhsEx4.drop 24) (rhsEx4.drop 8) 2 2
        = .error .misaligned_m128 ∧
      Run false 4096 dstEx 1 13 lhsEx4 rhsEx4 0 (2 + 2) = .ok out :=
  ⟨_, _, Run_overwrite_eq false 4096 dstEx 13 (lhsEx4.take 24) (rhsEx4.take 8) 2 (by decide)
      (by decide) (by decide) (by decide) (by decide),
    Run_merge_misaligned false 4096 _ 13 (lhsEx4.drop 24) (rhsEx4.drop 8) 2 2 (by decide)
      (by decide) (by decide) (by decide) (by decide) (by decide) (by decide),
    Run_overwrite_eq false 4096 dstEx 13 lhsEx4 rhsEx4 (2 + 2) (by decide) (by decide)
      (by decide) (by decide) (by decide)⟩

/-! ## Frame -/

/-- C4. No out-of-bounds writes: for `dst_row_stride = 1`, any
`dst_col_stride`, `run_depth` a positive multiple of 2 and either value of the
`start_depth` flag, a call that completes leaves unchanged every element whose
index is not `i * dst_row_stride + j * dst_col_stride` with `i < 12`, `j < 4`.
The call completes in overwrite mode and, in merge mode, on an aligned
destination; otherwise it stops at a `paddd` load, before the first store. -/
theorem Run_writes_only_the_block (ndebug : Bool) (dst_ptr : Nat) (dst : Mem)
    (dst_col_stride : Int) (lhs rhs : Panel) (start_depth run_depth : Int)
    (hpos : 0 < run_depth) (heven : run_depth % 2 = 0) (hi : IsInt run_depth)
    (hcs : IsInt dst_col_stride)
    (hl : 12 * run_depth.toNat ≤ lhs.length) (hr : 4 * run_depth.toNat ≤ rhs.length) :
    (∀ out, Run ndebug dst_ptr dst 1 dst_col_stride lhs rhs start_depth run_depth = .ok out →
      ∀ idx : Int,
        (¬ ∃ i j : Nat, i < 12 ∧ j < 4 ∧ idx = (i : Int) * 1 + (j : Int) * dst_col_stride) →
        out.dst idx = dst idx) ∧
    ((start_depth = 0 ∨ Aligned dst_ptr dst_col_stride) →
      ∃ out, Run ndebug dst_ptr dst 1 dst_col_stride lhs rhs start_depth run_depth = .ok out) ∧
    (¬ (start_depth = 0 ∨ Aligned dst_ptr dst_col_stride) →
      Run ndebug dst_ptr dst 1 dst_col_stride lhs rhs start_depth run_depth
        = .error .misaligned_m128) := by
  have hl2 : 24 * (run_depth / 2).toNat ≤ lhs.length := by omega
  have hr2 : 8 * (run_depth / 2).toNat ≤ rhs.length := by omega
  have h2 : 2 ≤ run_depth := by omega
  by_cases hs : start_depth = 0
  · subst hs
    have hrun := Run_overwrite_eq ndebug dst_ptr dst dst_col_stride lhs rhs run_depth h2 hi hcs
      hl2 hr2
    refine ⟨?_, fun _ => ⟨_, hrun⟩, fun h => absurd (Or.inl rfl) h⟩
    intro out hout idx hidx
    rw [hrun] at hout
    cases hout
    exact storeDst_frame dst dst_col_stride _ idx hidx
  · by_cases hal : Aligned dst_ptr dst_col_stride
    · have hrun := Run_merge_eq ndebug dst_ptr dst dst_col_stride lhs rhs start_depth run_depth
        hs h2 hi hcs hal hl2 hr2
      refine ⟨?_, fun _ => ⟨_, hrun⟩, fun h => absurd (Or.inr hal) h⟩
      intro out hout idx hidx
      rw [hrun] at hout
      cases hout
      exact storeDst_frame dst dst_col_stride _ idx hidx
    · have hrun := Run_merge_misaligned ndebug dst_ptr dst dst_col_stride lhs rhs start_depth
        run_depth hs h2 hi hcs hal hl2 hr2
      refine ⟨?_, ?_, fun _ => hrun⟩
      · intro out hout
        rw [hrun] at hout
        cases hout
      · intro h
        rcases h with h | h
        · exact absurd h hs
        · exact absurd h hal


theorem Run_writes_only_the_block_witness :
    (∀ out, Run true 4100 dstEx 1 5 lhsEx rhsEx 0 2 = .ok out →
      ∀ idx : Int,
        (¬ ∃ i j : Nat, i < 12 ∧ j < 4 ∧ idx = (i : Int) * 1 + (j : Int) * 5) →
        out.dst idx = dstEx idx) ∧
    (((0 : Int) = 0 ∨ Aligned 4100 5) →
      ∃ out, Run true 4100 dstEx 1 5 lhsEx rhsEx 0 2 = .ok out) ∧
    (¬ ((0 : Int) = 0 ∨ Aligned 4100 5) →
      Run true 4100 dstEx 1 5 lhsEx rhsEx 0 2 = .error .misaligned_m128) :=
  Run_writes_only_the_block true 4100 dstEx 5 lhsEx rhsEx 0 2 (by decide) (by decide)
    (by decide) (by decide) (by decide) (by decide)

/-! ## The concrete scenario -/

theorem refProduct_example (i j : Nat) (hi : i < 12) (hj : j < 4) :
    toInt32 (refProduct lhsEx rhsEx i j 2 % 4294967296)
      = ((2 * i + 1) * (j + 1) + (2 * i + 2) * (j + 5) : Nat) := by
  interval_cases i <;> interval_cases j <;> decide

/-- C5. The concrete scenario: lhs panel `1, ..., 24`, rhs panel packed from
the row-major tile `1, ..., 8`, `run_depth = 2`, `start_depth = 0`,
`dst_row_stride = 1`, `dst_col_stride = 12`. The call completes with
`dst[i + 12*j] = (2*i+1)*(j+1) + (2*i+2)*(j+5)` at all 48 positions; in
particular `dst[0] = 11` and `dst[47] = 284`. -/
theorem Run_concrete_scenario (ndebug : Bool) (dst_ptr : Nat) (dst : Mem) :
    ∃ out, Run ndebug dst_ptr dst 1 12 lhsEx rhsEx 0 2 = .ok out ∧
      (∀ i : Fin 12, ∀ j : Fin 4,
        out.dst ((i.val : Int) + 12 * (j.val : Int))
          = (((2 * i.val + 1) * (j.val + 1) + (2 * i.val + 2) * (j.val + 5) : Nat) : Int)) ∧
      out.dst 0 = 11 ∧ out.dst 47 = 284 := by
  obtain ⟨out, hrun, hval⟩ := Run_overwrite_block ndebug dst_ptr dst 12 lhsEx rhsEx 2
    (by decide) (by decide) (by decide) (by decide) (by decide) (by decide) (by decide)
  have key : ∀ i j : Nat, i < 12 → j < 4 →
      out.dst ((i : Int) + 12 * (j : Int))
        = (((2 * i + 1) * (j + 1) + (2 * i + 2) * (j + 5) : Nat) : Int) := by
    intro i j hi hj
    have h := hval i j hi hj
    rw [mul_comm] at h
    rw [h]
    exact refProduct_example i j hi hj
  refine ⟨out, hrun, fun i j => key i.val j.val i.isLt j.isLt, ?_, ?_⟩
  · simpa using key 0 0 (by decide) (by decide)
  · simpa using key 11 3 (by decide) (by decide)


/-! ## The loop count -/

/-- A completed call with `run_depth ≥ 2` comes from the state after
`run_depth / 2` steps, stored directly or after the merge. -/
theorem Run_ok_shape (ndebug : Bool) (dst_ptr : Nat) (dst : Mem) (A : Int)
    (lhs rhs : Panel) (start_depth run_depth : Int)
    (h2 : 2 ≤ run_depth) (hi : IsInt run_depth) (hA : IsInt A)
    (hl : 24 * (run_depth / 2).toNat ≤ lhs.length)
    (hr : 8 * (run_depth / 2).toNat ≤ rhs.length)
    (out : Outcome) (hout : Run ndebug dst_ptr dst 1 A lhs rhs start_depth run_depth = .ok out) :
    out = outcomeOf dst (4 * A) (12 * A) (stateAfter lhs rhs (run_depth / 2).toNat 0) ∨
    out = outcomeOf dst (4 * A) (12 * A)
      (mergedState dst (4 * A) (12 * A) (stateAfter lhs rhs (run_depth / 2).toNat 0)) := by
  by_cases hs : start_depth = 0
  · subst hs
    rw [Run_overwrite_eq ndebug dst_ptr dst A lhs rhs run_depth h2 hi hA hl hr] at hout
    cases hout
    exact Or.inl rfl
  · by_cases hal : Aligned dst_ptr A
    · rw [Run_merge_eq ndebug dst_ptr dst A lhs rhs start_depth run_depth hs h2 hi hA hal hl
        hr] at hout
      cases hout
      exact Or.inr rfl
    · rw [Run_merge_misaligned ndebug dst_ptr dst A lhs rhs start_depth run_depth hs h2 hi hA
        hal hl hr] at hout
      cases hout

/-- A fault in the loop is the result of the call. -/
theorem Run_of_loop_error (ndebug : Bool) (dst_ptr : Nat) (dst : Mem)
    (dst_row_stride dst_col_stride : Int) (lhs rhs : Panel) (start_depth run_depth : Int)
    (e : Fault) (hrow : ndebug = true ∨ dst_row_stride = 1)
    (h : outerLoop lhs rhs (initMachine (Int.tdiv run_depth kDepth)) = .error e) :
    Run ndebug dst_ptr dst dst_row_stride dst_col_stride lhs rhs start_depth run_depth
      = .error e := by
  have hassert : ¬ (ndebug = false ∧ dst_row_stride ≠ 1) := by
    rintro ⟨h1, h2⟩
    rcases hrow with h3 | h3
    · rw [h3] at h1
      cases h1
    · exact h2 h3
  unfold Run
  rw [if_neg hassert]
  simp only [h]

theorem outerLoopBody_rhs_short (lhs rhs : Panel) (s : Machine)
    (h : ¬ s.rhs_ptr + 8 ≤ rhs.length) :
    outerLoopBody lhs rhs s = .error .panel_read_out_of_bounds := by
  simp only [outerLoopBody, pmovzxbw, if_neg h]

/-- C6, as the code has it. For every call with `run_depth ≥ 2` (so for every
positive multiple of 2) on panels that hold `run_depth / 2` depth units, the
loop body runs exactly `run_depth / 2` times and the loop is left with the
counter at zero, before the store/merge phase; a call that completes reports
that count. -/
theorem Run_steps_of_valid_depth (ndebug : Bool) (dst_ptr : Nat) (dst : Mem)
    (dst_col_stride : Int) (lhs rhs : Panel) (start_depth run_depth : Int)
    (h2 : 2 ≤ run_depth) (hi : IsInt run_depth) (hcs : IsInt dst_col_stride)
    (hl : 24 * (run_depth / 2).toNat ≤ lhs.length)
    (hr : 8 * (run_depth / 2).toNat ≤ rhs.length) :
    (∃ s, outerLoop lhs rhs (initMachine (Int.tdiv run_depth kDepth)) = .ok s ∧
      (s.steps : Int) = run_depth / 2 ∧ s.run_depth_cells = 0) ∧
    (∀ out, Run ndebug dst_ptr dst 1 dst_col_stride lhs rhs start_depth run_depth = .ok out →
      (out.steps : Int) = run_depth / 2) ∧
    (start_depth = 0 →
      ∃ out, Run ndebug dst_ptr dst 1 dst_col_stride lhs rhs start_depth run_depth = .ok out) := by
  have hn : (((run_depth / 2).toNat : Nat) : Int) = run_depth / 2 := by omega
  refine ⟨⟨_, outerLoop_of_run_depth lhs rhs run_depth h2 hi hl hr, hn, rfl⟩, ?_, ?_⟩
  · intro out hout
    rcases Run_ok_shape ndebug dst_ptr dst dst_col_stride lhs rhs start_depth run_depth h2 hi hcs
      hl hr out hout with h | h <;> rw [h] <;> exact hn
  · intro hs
    subst hs
    exact ⟨_, Run_overwrite_eq ndebug dst_ptr dst dst_col_stride lhs rhs run_depth h2 hi hcs
      hl hr⟩

theorem Run_steps_of_valid_depth_witness :
    (∃ s, outerLoop lhsEx4 rhsEx4 (initMachine (Int.tdiv 5 kDepth)) = .ok s ∧
      (s.steps : Int) = 5 / 2 ∧ s.run_depth_cells = 0) ∧
    (∀ out, Run false 4096 dstEx 1 12 lhsEx4 rhsEx4 0 5 = .ok out →
      (out.steps : Int) = 5 / 2) ∧
    ((0 : Int) = 0 → ∃ out, Run false 4096 dstEx 1 12 lhsEx4 rhsEx4 0 5 = .ok out) :=
  Run_steps_of_valid_depth false 4096 dstEx 12 lhsEx4 rhsEx4 0 5 (by decide) (by decide)
    (by decide) (by decide) (by decide)

/-- C6 fails as stated for `run_depth = 0`: `run_depth / 2 = 0`, yet the body
runs once on the first 24 and 8 bytes, `decq` then takes the counter from 0 to
`2^64 - 1`, which is not zero, and the loop goes round again; on panels of one
depth unit the second round reads past the end. The call does not finish
after zero steps. -/
theorem Run_steps_zero_depth_counterexample :
    (∃ s1, outerLoopBody lhsEx rhsEx (initMachine (Int.tdiv 0 kDepth)) = .ok s1 ∧
      s1.steps = 1) ∧
    decq (initMachine (Int.tdiv 0 kDepth)).run_depth_cells = 18446744073709551615 ∧
    Run false 4096 dstEx 1 12 lhsEx rhsEx 0 0 = .error .panel_read_out_of_bounds := by
  have hinit : initMachine (Int.tdiv 0 kDepth) = stateAfter lhsEx rhsEx 0 0 := rfl
  have hbody := outerLoopBody_stateAfter lhsEx rhsEx 0 0 (by decide) (by decide)
  refine ⟨⟨_, by rw [hinit]; exact hbody, rfl⟩, rfl, ?_⟩
  have hloop : outerLoop lhsEx rhsEx (stateAfter lhsEx rhsEx 0 0)
      = .error .panel_read_out_of_bounds := by
    rw [outerLoop_step lhsEx rhsEx 0 0 (by decide) (by decide)]
    rw [if_neg (by decide), outerLoop_unfold,
      outerLoopBody_rhs_short lhsEx rhsEx _ (by decide)]
  exact Run_of_loop_error false 4096 dstEx 1 12 lhsEx rhsEx 0 0 _ (Or.inr rfl)
    (by rw [hinit]; exact hloop)


/-! ## Panel reads -/

theorem lhsLoads_eq (n : Nat) :
    lhsLoads n = (List.range n).flatMap fun k => [24 * k, 24 * k + 8, 24 * k + 16] := by
  induction n with
  | zero => rfl
  | succ n ih =>
    rw [List.range_succ, List.flatMap_append, ← ih]
    simp [lhsLoads]

theorem rhsLoads_eq (n : Nat) :
    rhsLoads n = (List.range n).flatMap fun k => [8 * k] := by
  induction n with
  | zero => rfl
  | succ n ih =>
    rw [List.range_succ, List.flatMap_append, ← ih]
    simp [rhsLoads]

theorem mem_lhsLoads (n o : Nat) :
    o ∈ lhsLoads n ↔ ∃ k, k < n ∧ (o = 24 * k ∨ o = 24 * k + 8 ∨ o = 24 * k + 16) := by
  rw [lhsLoads_eq]
  simp [List.mem_flatMap]

theorem mem_rhsLoads (n o : Nat) : o ∈ rhsLoads n ↔ ∃ k, k < n ∧ o = 8 * k := by
  rw [rhsLoads_eq]
  simp [List.mem_flatMap]

/-- A call with `run_depth ≥ 2` on panels that hold `run_depth / 2` depth units
either completes or stops at a misaligned merge load. -/
theorem Run_writes_block_cases (ndebug : Bool) (dst_ptr : Nat) (dst : Mem) (A : Int)
    (lhs rhs : Panel) (start_depth run_depth : Int)
    (h2 : 2 ≤ run_depth) (hi : IsInt run_depth) (hA : IsInt A)
    (hl : 24 * (run_depth / 2).toNat ≤ lhs.length)
    (hr : 8 * (run_depth / 2).toNat ≤ rhs.length) :
    (∃ out, Run ndebug dst_ptr dst 1 A lhs rhs start_depth run_depth = .ok out) ∨
    Run ndebug dst_ptr dst 1 A lhs rhs start_depth run_depth = .error .misaligned_m128 := by
  by_cases hs : start_depth = 0
  · subst hs
    exact Or.inl ⟨_, Run_overwrite_eq ndebug dst_ptr dst A lhs rhs run_depth h2 hi hA hl hr⟩
  · by_cases hal : Aligned dst_ptr A
    · exact Or.inl ⟨_, Run_merge_eq ndebug dst_ptr dst A lhs rhs start_depth run_depth hs h2 hi
        hA hal hl hr⟩
    · exact Or.inr (Run_merge_misaligned ndebug dst_ptr dst A lhs rhs start_depth run_depth hs
        h2 hi hA hal hl hr)

/-- C7. Panel reads stay inside the declared panel length: for `run_depth` a
positive multiple of 2, an lhs panel of exactly `12 * run_depth` bytes and an
rhs panel of exactly `4 * run_depth` bytes, no load of the call reads out of
bounds, and the loads of a completed call are, step by step for
`k < run_depth / 2`, the 8-byte loads at lhs offsets `24k`, `24k + 8`,
`24k + 16` and at rhs offset `8k`: each inside its panel, and together
covering every byte of both panels. -/
theorem Run_reads_whole_panels (ndebug : Bool) (dst_ptr : Nat) (dst : Mem)
    (dst_col_stride : Int) (lhs rhs : Panel) (start_depth run_depth : Int)
    (hpos : 0 < run_depth) (heven : run_depth % 2 = 0) (hi : IsInt run_depth)
    (hcs : IsInt dst_col_stride)
    (hl : lhs.length = 12 * 2 * (run_depth / 2).toNat)
    (hr : rhs.length = 4 * 2 * (run_depth / 2).toNat) :
    Run ndebug dst_ptr dst 1 dst_col_stride lhs rhs start_depth run_depth
      ≠ .error .panel_read_out_of_bounds ∧
    ((start_depth = 0 ∨ Aligned dst_ptr dst_col_stride) →
      ∃ out, Run ndebug dst_ptr dst 1 dst_col_stride lhs rhs start_depth run_depth = .ok out) ∧
    ∀ out, Run ndebug dst_ptr dst 1 dst_col_stride lhs rhs start_depth run_depth = .ok out →
      (out.lhs_loads = (List.range (run_depth / 2).toNat).flatMap
          fun k => [24 * k, 24 * k + 8, 24 * k + 16]) ∧
      (out.rhs_loads = (List.range (run_depth / 2).toNat).flatMap fun k => [8 * k]) ∧
      (∀ o ∈ out.lhs_loads, o + 8 ≤ lhs.length) ∧
      (∀ o ∈ out.rhs_loads, o + 8 ≤ rhs.length) ∧
      (∀ b, b < lhs.length → ∃ o ∈ out.lhs_loads, o ≤ b ∧ b < o + 8) ∧
      (∀ b, b < rhs.length → ∃ o ∈ out.rhs_loads, o ≤ b ∧ b < o + 8) := by
  have h2 : 2 ≤ run_depth := by omega
  have hl2 : 24 * (run_depth / 2).toNat ≤ lhs.length := by omega
  have hr2 : 8 * (run_depth / 2).toNat ≤ rhs.length := by omega
  have hcases := Run_writes_block_cases ndebug dst_ptr dst dst_col_stride lhs rhs start_depth
    run_depth h2 hi hcs hl2 hr2
  refine ⟨?_, ?_, ?_⟩
  · rcases hcases with ⟨out, h⟩ | h <;> rw [h] <;> simp
  · intro hok
    rcases hcases with ⟨out, h⟩ | h
    · exact ⟨out, h⟩
    · rcases hok with hs | hal
      · subst hs
        rw [Run_overwrite_eq ndebug dst_ptr dst dst_col_stride lhs rhs run_depth h2 hi hcs hl2
          hr2] at h
        cases h
      · by_cases hs : start_depth = 0
        · subst hs
          rw [Run_overwrite_eq ndebug dst_ptr dst dst_col_stride lhs rhs run_depth h2 hi hcs hl2
            hr2] at h
          cases h
        · rw [Run_merge_eq ndebug dst_ptr dst dst_col_stride lhs rhs start_depth run_depth hs h2
            hi hcs hal hl2 hr2] at h
          cases h
  · intro out hout
    have hL : out.lhs_loads = lhsLoads (run_depth / 2).toNat := by
      rcases Run_ok_shape ndebug dst_ptr dst dst_col_stride lhs rhs start_depth run_depth h2 hi
        hcs hl2 hr2 out hout with h | h <;> rw [h] <;> rfl
    have hR : out.rhs_loads = rhsLoads (run_depth / 2).toNat := by
      rcases Run_ok_shape ndebug dst_ptr dst dst_col_stride lhs rhs start_depth run_depth h2 hi
        hcs hl2 hr2 out hout with h | h <;> rw [h] <;> rfl
    refine ⟨by rw [hL, lhsLoads_eq], by rw [hR, rhsLoads_eq], ?_, ?_, ?_, ?_⟩
    · intro o ho
      rw [hL, mem_lhsLoads] at ho
      obtain ⟨k, hk, hko⟩ := ho
      omega
    · intro o ho
      rw [hR, mem_rhsLoads] at ho
      obtain ⟨k, hk, hko⟩ := ho
      omega
    · intro b hb
      rw [hL]
      refine ⟨8 * (b / 8), (mem_lhsLoads _ _).2 ⟨b / 24, by omega, by omega⟩, by omega, by omega⟩
    · intro b hb
      rw [hR]
      refine ⟨8 * (b / 8), (mem_rhsLoads _ _).2 ⟨b / 8, by omega, by omega⟩, by omega, by omega⟩


theorem Run_reads_whole_panels_witness :
    Run false 4096 dstEx 1 12 lhsEx rhsEx 0 2 ≠ .error .panel_read_out_of_bounds ∧
    (((0 : Int) = 0 ∨ Aligned 4096 12) →
      ∃ out, Run false 4096 dstEx 1 12 lhsEx rhsEx 0 2 = .ok out) ∧
    ∀ out, Run false 4096 dstEx 1 12 lhsEx rhsEx 0 2 = .ok out →
      (out.lhs_loads = (List.range ((2 : Int) / 2).toNat).flatMap
          fun k => [24 * k, 24 * k + 8, 24 * k + 16]) ∧
      (out.rhs_loads = (List.range ((2 : Int) / 2).toNat).flatMap fun k => [8 * k]) ∧
      (∀ o ∈ out.lhs_loads, o + 8 ≤ lhsEx.length) ∧
      (∀ o ∈ out.rhs_loads, o + 8 ≤ rhsEx.length) ∧
      (∀ b, b < lhsEx.length → ∃ o ∈ out.lhs_loads, o ≤ b ∧ b < o + 8) ∧
      (∀ b, b < rhsEx.length → ∃ o ∈ out.rhs_loads, o ≤ b ∧ b < o + 8) :=
  Run_reads_whole_panels false 4096 dstEx 12 lhsEx rhsEx 0 2 (by decide) (by decide)
    (by decide) (by decide) (by decide) (by decide)

/-! ## Order of the chunks -/

theorem paddd_swap (x a b : Xmm) : paddd (paddd x a) b = paddd (paddd x b) a := by
  unfold paddd
  simp only [Xmm.mk.injEq]
  refine ⟨?_, ?_, ?_, ?_⟩ <;> omega

theorem merge_twice_comm (dst : Mem) (r12 r13 : Int) (a b : Machine) :
    (blockSlots r12 r13 (mergedState dst r12 r13 a) b).map
        (fun p => (paddd p.1 p.2.1, p.2.2))
      = (blockSlots r12 r13 (mergedState dst r12 r13 b) a).map
        (fun p => (paddd p.1 p.2.1, p.2.2)) := by
  simp only [blockSlots, mergedState, List.map_cons, List.map_nil]
  rw [paddd_swap _ a.xmm4 b.xmm4, paddd_swap _ a.xmm5 b.xmm5, paddd_swap _ a.xmm6 b.xmm6,
    paddd_swap _ a.xmm7 b.xmm7, paddd_swap _ a.xmm8 b.xmm8, paddd_swap _ a.xmm9 b.xmm9,
    paddd_swap _ a.xmm10 b.xmm10, paddd_swap _ a.xmm11 b.xmm11, paddd_swap _ a.xmm12 b.xmm12,
    paddd_swap _ a.xmm13 b.xmm13, paddd_swap _ a.xmm14 b.xmm14, paddd_swap _ a.xmm15 b.xmm15]

theorem toLane_merge_twice (v : Int) (p q : Nat) :
    toLane (toInt32 (toLane (v + (p : Int))) + (q : Int)) = toLane (v + ((p + q : Nat) : Int)) := by
  unfold toLane toInt32
  push_cast
  split_ifs <;> omega

/-- Merging two chunks in either order on an aligned destination. -/
theorem Run_merge_two_chunks (ndebug : Bool) (dst_ptr : Nat) (dst : Mem) (A : Int)
    (lhsA rhsA lhsB rhsB : Panel) (sA dA sB dB : Int)
    (hsA : sA ≠ 0) (hsB : sB ≠ 0)
    (hpA : 0 < dA) (heA : dA % 2 = 0) (hiA : IsInt dA)
    (hpB : 0 < dB) (heB : dB % 2 = 0) (hiB : IsInt dB)
    (hA : IsInt A) (hal : Aligned dst_ptr A)
    (hlA : 12 * dA.toNat ≤ lhsA.length) (hrA : 4 * dA.toNat ≤ rhsA.length)
    (hlB : 12 * dB.toNat ≤ lhsB.length) (hrB : 4 * dB.toNat ≤ rhsB.length) :
    ∃ a ab b ba,
      Run ndebug dst_ptr dst 1 A lhsA rhsA sA dA = .ok a ∧
      Run ndebug dst_ptr a.dst 1 A lhsB rhsB sB dB = .ok ab ∧
      Run ndebug dst_ptr dst 1 A lhsB rhsB sB dB = .ok b ∧
      Run ndebug dst_ptr b.dst 1 A lhsA rhsA sA dA = .ok ba ∧
      ab.dst = ba.dst ∧
      (12 ≤ |A| → ∀ i j : Nat, i < 12 → j < 4 →
        ab.dst ((i : Int) + (j : Int) * A)
          = toInt32 (toLane (dst ((i : Int) + (j : Int) * A)
              + ((refProduct lhsA rhsA i j dA.toNat + refProduct lhsB rhsB i j dB.toNat : Nat)
                  : Int)))) := by
  have hA1 := Run_merge_eq ndebug dst_ptr dst A lhsA rhsA sA dA hsA (by omega) hiA hA hal
    (by omega) (by omega)
  have hB1 := Run_merge_eq ndebug dst_ptr dst A lhsB rhsB sB dB hsB (by omega) hiB hA hal
    (by omega) (by omega)
  have hB2 := fun D => Run_merge_eq ndebug dst_ptr D A lhsB rhsB sB dB hsB (by omega) hiB hA hal
    (by omega) (by omega)
  have hA2 := fun D => Run_merge_eq ndebug dst_ptr D A lhsA rhsA sA dA hsA (by omega) hiA hA hal
    (by omega) (by omega)
  refine ⟨_, _, _, _, hA1, hB2 _, hB1, hA2 _, ?_, ?_⟩
  · funext idx
    simp only [outcomeOf]
    rw [storeDst_merge, storeDst_merge, merge_twice_comm]
  · intro hno i j hi12 hj4
    obtain ⟨a, ha, hva⟩ := Run_merge_block ndebug dst_ptr dst A lhsA rhsA sA dA hsA hpA heA hiA
      hA hno hal hlA hrA
    obtain ⟨ab, hab, hvab⟩ := Run_merge_block ndebug dst_ptr a.dst A lhsB rhsB sB dB hsB hpB heB
      hiB hA hno hal hlB hrB
    rw [hA1] at ha
    cases ha
    rw [hB2] at hab
    cases hab
    rw [hvab i j hi12 hj4, hva i j hi12 hj4, toLane_merge_twice]


/-- C8. Chunk order on a destination that is not 16-byte aligned: with
`dst_ptr = 4100` (a multiple of 4, not of 16), `dst_col_stride = 12` and
nonzero `start_depth`, the merge of either chunk faults at its first `paddd`
load, so neither order leaves the destination plus the two products. The
overwrite call on the same destination completes: its `movdqu` stores go to
the addresses the merges cannot load from. -/
theorem Run_chunk_order_unaligned_faults :
    Run false 4100 dstEx 1 12 lhsEx rhsEx 2 2 = .error .misaligned_m128 ∧
    Run false 4100 dstEx 1 12 lhsEx4 rhsEx4 4 4 = .error .misaligned_m128 ∧
    ∃ out, Run false 4100 dstEx 1 12 lhsEx rhsEx 0 2 = .ok out :=
  ⟨Run_merge_misaligned false 4100 dstEx 12 lhsEx rhsEx 2 2 (by decide) (by decide)
      (by decide) (by decide) (by decide) (by decide) (by decide),
    Run_merge_misaligned false 4100 dstEx 12 lhsEx4 rhsEx4 4 4 (by decide) (by decide)
      (by decide) (by decide) (by decide) (by decide) (by decide),
    _, Run_overwrite_eq false 4100 dstEx 12 lhsEx rhsEx 2 (by decide) (by decide) (by decide)
      (by decide) (by decide)⟩

/-- Columns that overlap: on an aligned destination with `dst_col_stride = 4`,
after merging the same chunk twice the element at index 4 holds 132, its old
value plus the products of row 0 of column 1, which is stored there last, and
not the 222 that row 4 of column 0 would give. -/
theorem merge_twice_overlap_example :
    ∃ a ab,
      Run false 4096 dstEx 1 4 lhsEx rhsEx 2 2 = .ok a ∧
      Run false 4096 a.dst 1 4 lhsEx rhsEx 2 2 = .ok ab ∧
      ab.dst ((4 : Nat) + (0 : Nat) * 4) = 132 ∧
      toInt32 (toLane (dstEx ((4 : Nat) + (0 : Nat) * 4)
        + ((refProduct lhsEx rhsEx 4 0 (2 : Int).toNat
            + refProduct lhsEx rhsEx 4 0 (2 : Int).toNat : Nat) : Int))) = 222 :=
  ⟨_, _,
    Run_merge_eq false 4096 dstEx 4 lhsEx rhsEx 2 2 (by decide) (by decide) (by decide)
      (by decide) (by decide) (by decide) (by decide),
    Run_merge_eq false 4096 _ 4 lhsEx rhsEx 2 2 (by decide) (by decide) (by decide)
      (by decide) (by decide) (by decide) (by decide),
    by decide, by decide⟩

/-! ## Layout independence -/

theorem refProduct_congr (lhs lhs' rhs rhs' : Panel) (i j : Nat) :
    ∀ d : Nat, (∀ e, e < d → lhsAt lhs i e = lhsAt lhs' i e) →
      (∀ e, e < d → rhsAt rhs j e = rhsAt rhs' j e) →
      refProduct lhs rhs i j d = refProduct lhs' rhs' i j d := by
  intro d
  induction d with
  | zero => intro _ _; rfl
  | succ d ih =>
    intro hL hR
    show refProduct lhs rhs i j d + lhsAt lhs i d * rhsAt rhs j d
      = refProduct lhs' rhs' i j d + lhsAt lhs' i d * rhsAt rhs' j d
    rw [ih (fun e he => hL e (by omega)) (fun e he => hR e (by omega)),
      hL d (by omega), hR d (by omega)]

theorem accReg_congr (lhs lhs' rhs rhs' : Panel) (d g c : Nat) (hg : g < 3) (hc : c < 4)
    (hL : ∀ i e, i < 12 → e < d → lhsAt lhs i e = lhsAt lhs' i e)
    (hR : ∀ j e, j < 4 → e < d → rhsAt rhs j e = rhsAt rhs' j e) :
    accReg lhs rhs d g c = accReg lhs' rhs' d g c := by
  have h : ∀ i, i < 12 → refProduct lhs rhs i c d = refProduct lhs' rhs' i c d :=
    fun i hi => refProduct_congr lhs lhs' rhs rhs' i c d (fun e he => hL i e hi he)
      (fun e he => hR c e hc he)
  unfold accReg
  rw [h (4 * g) (by omega), h (4 * g + 1) (by omega), h (4 * g + 2) (by omega),
    h (4 * g + 3) (by omega)]

theorem stateAfter_congr (lhs lhs' rhs rhs' : Panel) (n cnt : Nat)
    (hL : ∀ i e, i < 12 → e < 2 * n → lhsAt lhs i e = lhsAt lhs' i e)
    (hR : ∀ j e, j < 4 → e < 2 * n → rhsAt rhs j e = rhsAt rhs' j e) :
    stateAfter lhs rhs n cnt = stateAfter lhs' rhs' n cnt := by
  have h := fun g c hg hc => accReg_congr lhs lhs' rhs rhs' (2 * n) g c hg hc hL hR
  unfold stateAfter
  rw [h 0 0 (by omega) (by omega), h 0 1 (by omega) (by omega), h 0 2 (by omega) (by omega),
    h 0 3 (by omega) (by omega), h 1 0 (by omega) (by omega), h 1 1 (by omega) (by omega),
    h 1 2 (by omega) (by omega), h 1 3 (by omega) (by omega), h 2 0 (by omega) (by omega),
    h 2 1 (by omega) (by omega), h 2 2 (by omega) (by omega), h 2 3 (by omega) (by omega)]

/-- Panels that agree on the logical entries of the first `run_depth` depth
elements give the same result, value for value and fault for fault. -/
theorem Run_congr (ndebug : Bool) (dst_ptr : Nat) (dst : Mem) (A : Int)
    (lhs lhs' rhs rhs' : Panel) (start_depth run_depth : Int)
    (h2 : 2 ≤ run_depth) (hi : IsInt run_depth)
    (hl : 24 * (run_depth / 2).toNat ≤ lhs.length)
    (hr : 8 * (run_depth / 2).toNat ≤ rhs.length)
    (hl' : 24 * (run_depth / 2).toNat ≤ lhs'.length)
    (hr' : 8 * (run_depth / 2).toNat ≤ rhs'.length)
    (hL : ∀ i e, i < 12 → e < 2 * (run_depth / 2).toNat → lhsAt lhs i e = lhsAt lhs' i e)
    (hR : ∀ j e, j < 4 → e < 2 * (run_depth / 2).toNat → rhsAt rhs j e = rhsAt rhs' j e) :
    Run ndebug dst_ptr dst 1 A lhs rhs start_depth run_depth
      = Run ndebug dst_ptr dst 1 A lhs' rhs' start_depth run_depth := by
  simp only [Run, outerLoop_of_run_depth lhs rhs run_depth h2 hi hl hr,
    outerLoop_of_run_depth lhs' rhs' run_depth h2 hi hl' hr',
    stateAfter_congr lhs lhs' rhs rhs' _ 0 hL hR]


theorem lhsAt_of_take_eq (lhs lhs' : Panel) (m i d : Nat) (hi : i < 12)
    (hd : 24 * (d / 2) + 24 ≤ m) (h : lhs.take m = lhs'.take m) :
    lhsAt lhs i d = lhsAt lhs' i d := by
  unfold lhsAt
  rw [← byteAt_take lhs m _ (by omega), ← byteAt_take lhs' m _ (by omega), h]

theorem rhsAt_of_take_eq (rhs rhs' : Panel) (m j d : Nat) (hj : j < 4)
    (hd : 8 * (d / 2) + 8 ≤ m) (h : rhs.take m = rhs'.take m) :
    rhsAt rhs j d = rhsAt rhs' j d := by
  unfold rhsAt
  rw [← byteAt_take rhs m _ (by omega), ← byteAt_take rhs' m _ (by omega), h]

/-- C9. Layout independence: for `run_depth` a positive multiple of 2, two
pairs of panels that hold the same logical entries `lhs[i][d]`, `rhs[j][d]`
for `i < 12`, `j < 4`, `d < run_depth`, read through the `WidthMajor` cell
layout, give the same result of the call, whatever lies beyond; in particular
panels that agree on bytes `[0, 12*run_depth)` of lhs and `[0, 4*run_depth)`
of rhs give the same result. -/
theorem Run_layout_independent (ndebug : Bool) (dst_ptr : Nat) (dst : Mem)
    (dst_col_stride : Int) (lhs lhs' rhs rhs' : Panel) (start_depth run_depth : Int)
    (hpos : 0 < run_depth) (heven : run_depth % 2 = 0) (hi : IsInt run_depth)
    (hl : 12 * run_depth.toNat ≤ lhs.length) (hr : 4 * run_depth.toNat ≤ rhs.length)
    (hl' : 12 * run_depth.toNat ≤ lhs'.length) (hr' : 4 * run_depth.toNat ≤ rhs'.length) :
    ((∀ i d, i < 12 → d < run_depth.toNat → lhsAt lhs i d = lhsAt lhs' i d) →
      (∀ j d, j < 4 → d < run_depth.toNat → rhsAt rhs j d = rhsAt rhs' j d) →
      Run ndebug dst_ptr dst 1 dst_col_stride lhs rhs start_depth run_depth
        = Run ndebug dst_ptr dst 1 dst_col_stride lhs' rhs' start_depth run_depth) ∧
    (lhs.take (12 * run_depth.toNat) = lhs'.take (12 * run_depth.toNat) →
      rhs.take (4 * run_depth.toNat) = rhs'.take (4 * run_depth.toNat) →
      Run ndebug dst_ptr dst 1 dst_col_stride lhs rhs start_depth run_depth
        = Run ndebug dst_ptr dst 1 dst_col_stride lhs' rhs' start_depth run_depth) := by
  have hn : 2 * (run_depth / 2).toNat = run_depth.toNat := by omega
  have key : (∀ i d, i < 12 → d < run_depth.toNat → lhsAt lhs i d = lhsAt lhs' i d) →
      (∀ j d, j < 4 → d < run_depth.toNat → rhsAt rhs j d = rhsAt rhs' j d) →
      Run ndebug dst_ptr dst 1 dst_col_stride lhs rhs start_depth run_depth
        = Run ndebug dst_ptr dst 1 dst_col_stride lhs' rhs' start_depth run_depth := by
    intro hL hR
    exact Run_congr ndebug dst_ptr dst dst_col_stride lhs lhs' rhs rhs' start_depth run_depth
      (by omega) hi (by omega) (by omega) (by omega) (by omega)
      (fun i e hi12 he => hL i e hi12 (by omega)) (fun j e hj4 he => hR j e hj4 (by omega))
  refine ⟨key, fun hL hR => key ?_ ?_⟩
  · intro i d hi12 hd
    exact lhsAt_of_take_eq lhs lhs' _ i d hi12 (by omega) hL
  · intro j d hj4 hd
    exact rhsAt_of_take_eq rhs rhs' _ j d hj4 (by omega) hR

theorem Run_layout_independent_witness :
    ((∀ i d, i < 12 → d < (2 : Int).toNat → lhsAt lhsEx i d = lhsAt lhsEx4 i d) →
      (∀ j d, j < 4 → d < (2 : Int).toNat → rhsAt rhsEx j d = rhsAt rhsEx4 j d) →
      Run false 4096 dstEx 1 12 lhsEx rhsEx 2 2
        = Run false 4096 dstEx 1 12 lhsEx4 rhsEx4 2 2) ∧
    (lhsEx.take (12 * (2 : Int).toNat) = lhsEx4.take (12 * (2 : Int).toNat) →
      rhsEx.take (4 * (2 : Int).toNat) = rhsEx4.take (4 * (2 : Int).toNat) →
      Run false 4096 dstEx 1 12 lhsEx rhsEx 2 2
        = Run false 4096 dstEx 1 12 lhsEx4 rhsEx4 2 2) :=
  Run_layout_independent false 4096 dstEx 12 lhsEx lhsEx4 rhsEx rhsEx4 2 2 (by decide)
    (by decide) (by decide) (by decide) (by decide) (by decide) (by decide)

/-! ## Exact widened products -/

theorem pshufd_lane (j : Nat) (hj : j < 4) (x : Xmm) (l : Nat) :
    (pshufd (0x55 * j) x).lane l = x.lane j := by
  interval_cases j <;> (unfold pshufd Xmm.lane; split <;> rfl)

theorem pmovzxbw_lane (p : Panel) (off l : Nat) (hl : l < 4) :
    (Xmm.mk (zxLane p off) (zxLane p (off + 2)) (zxLane p (off + 4)) (zxLane p (off + 6))).lane l
      = zxLane p (off + 2 * l) := by
  interval_cases l <;> rfl

theorem pmaddwd_lane (src dst : Xmm) (l : Nat) :
    (pmaddwd src dst).lane l = pmaddwdLane (dst.lane l) (src.lane l) := by
  unfold pmaddwd Xmm.lane
  split <;> rfl

/-- C10. Exact widened products: at step `k`, for row `i` and column `j`, the
lane that `pmovzxbw`, `pshufd` and `pmaddwd` produce is the exact value
`lhs[i][2k]*rhs[j][2k] + lhs[i][2k+1]*rhs[j][2k+1]`, at most `130050`: every
16-bit word read as signed is the unsigned byte it came from, and the lane,
read as a signed 32-bit value, is that exact sum. -/
theorem pmaddwd_lane_exact (lhs rhs : Panel) (k i j : Nat) (hi : i < 12) (hj : j < 4)
    (hl : 24 * (k + 1) ≤ lhs.length) (hr : 8 * (k + 1) ≤ rhs.length) :
    ∃ xmm0 xmm1,
      pmovzxbw lhs (24 * k + 8 * (i / 4)) = .ok xmm0 ∧
      pmovzxbw rhs (8 * k) = .ok xmm1 ∧
      sx16 (xmm0.lane (i % 4)) = (lhsAt lhs i (2 * k) : Int) ∧
      sx16 (xmm0.lane (i % 4) / 65536) = (lhsAt lhs i (2 * k + 1) : Int) ∧
      sx16 ((pshufd (0x55 * j) xmm1).lane (i % 4)) = (rhsAt rhs j (2 * k) : Int) ∧
      sx16 ((pshufd (0x55 * j) xmm1).lane (i % 4) / 65536) = (rhsAt rhs j (2 * k + 1) : Int) ∧
      (pmaddwd xmm0 (pshufd (0x55 * j) xmm1)).lane (i % 4)
        = lhsAt lhs i (2 * k) * rhsAt rhs j (2 * k)
          + lhsAt lhs i (2 * k + 1) * rhsAt rhs j (2 * k + 1) ∧
      toInt32 ((pmaddwd xmm0 (pshufd (0x55 * j) xmm1)).lane (i % 4))
        = ((lhsAt lhs i (2 * k) * rhsAt rhs j (2 * k)
          + lhsAt lhs i (2 * k + 1) * rhsAt rhs j (2 * k + 1) : Nat) : Int) ∧
      lhsAt lhs i (2 * k) * rhsAt rhs j (2 * k)
        + lhsAt lhs i (2 * k + 1) * rhsAt rhs j (2 * k + 1) ≤ 130050 := by
  have b0 : 24 * k + 8 * (i / 4) + 8 ≤ lhs.length := by omega
  have b1 : 8 * k + 8 ≤ rhs.length := by omega
  have eL0 : lhsAt lhs i (2 * k) = byteAt lhs (24 * k + 8 * (i / 4) + 2 * (i % 4)) := by
    unfold lhsAt
    congr 1
    omega
  have eL1 : lhsAt lhs i (2 * k + 1) = byteAt lhs (24 * k + 8 * (i / 4) + 2 * (i % 4) + 1) := by
    unfold lhsAt
    congr 1
    omega
  have eR0 : rhsAt rhs j (2 * k) = byteAt rhs (8 * k + 2 * j) := by
    unfold rhsAt
    congr 1
    omega
  have eR1 : rhsAt rhs j (2 * k + 1) = byteAt rhs (8 * k + 2 * j + 1) := by
    unfold rhsAt
    congr 1
    omega
  have hL0 := byteAt_lt lhs (24 * k + 8 * (i / 4) + 2 * (i % 4))
  have hL1 := byteAt_lt lhs (24 * k + 8 * (i / 4) + 2 * (i % 4) + 1)
  have hR0 := byteAt_lt rhs (8 * k + 2 * j)
  have hR1 := byteAt_lt rhs (8 * k + 2 * j + 1)
  have m0 : byteAt lhs (24 * k + 8 * (i / 4) + 2 * (i % 4)) * byteAt rhs (8 * k + 2 * j)
      ≤ 255 * 255 := Nat.mul_le_mul (by omega) (by omega)
  have m1 : byteAt lhs (24 * k + 8 * (i / 4) + 2 * (i % 4) + 1) * byteAt rhs (8 * k + 2 * j + 1)
      ≤ 255 * 255 := Nat.mul_le_mul (by omega) (by omega)
  refine ⟨_, _, by unfold pmovzxbw; rw [if_pos b0], by unfold pmovzxbw; rw [if_pos b1],
    ?_, ?_, ?_, ?_, ?_, ?_, ?_⟩
  · rw [pmovzxbw_lane _ _ _ (by omega), eL0]
    unfold sx16
    rw [zxLane_mod]
    simp [show byteAt lhs (24 * k + 8 * (i / 4) + 2 * (i % 4)) < 32768 by omega]
  · rw [pmovzxbw_lane _ _ _ (by omega), eL1, zxLane_div]
    exact sx16_of_lt _ (by omega)
  · rw [pshufd_lane j hj, pmovzxbw_lane _ _ _ hj, eR0]
    unfold sx16
    rw [zxLane_mod]
    simp [show byteAt rhs (8 * k + 2 * j) < 32768 by omega]
  · rw [pshufd_lane j hj, pmovzxbw_lane _ _ _ hj, eR1, zxLane_div]
    exact sx16_of_lt _ (by omega)
  · rw [pmaddwd_lane, pshufd_lane j hj, pmovzxbw_lane _ _ _ hj, pmovzxbw_lane _ _ _ (by omega),
      pmaddwdLane_zx, eL0, eL1, eR0, eR1]
    ring
  · rw [pmaddwd_lane, pshufd_lane j hj, pmovzxbw_lane _ _ _ hj, pmovzxbw_lane _ _ _ (by omega),
      pmaddwdLane_zx, eL0, eL1, eR0, eR1]
    unfold toInt32
    have c0 := Nat.mul_comm (byteAt rhs (8 * k + 2 * j))
      (byteAt lhs (24 * k + 8 * (i / 4) + 2 * (i % 4)))
    have c1 := Nat.mul_comm (byteAt rhs (8 * k + 2 * j + 1))
      (byteAt lhs (24 * k + 8 * (i / 4) + 2 * (i % 4) + 1))
    split_ifs <;> omega
  · rw [eL0, eL1, eR0, eR1]
    omega

theorem pmaddwd_lane_exact_witness :
    ∃ xmm0 xmm1,
      pmovzxbw lhsEx4 (24 * 1 + 8 * (7 / 4)) = .ok xmm0 ∧
      pmovzxbw rhsEx4 (8 * 1) = .ok xmm1 ∧
      sx16 (xmm0.lane (7 % 4)) = (lhsAt lhsEx4 7 (2 * 1) : Int) ∧
      sx16 (xmm0.lane (7 % 4) / 65536) = (lhsAt lhsEx4 7 (2 * 1 + 1) : Int) ∧
      sx16 ((pshufd (0x55 * 2) xmm1).lane (7 % 4)) = (rhsAt rhsEx4 2 (2 * 1) : Int) ∧
      sx16 ((pshufd (0x55 * 2) xmm1).lane (7 % 4) / 65536) = (rhsAt rhsEx4 2 (2 * 1 + 1) : Int) ∧
      (pmaddwd xmm0 (pshufd (0x55 * 2) xmm1)).lane (7 % 4)
        = lhsAt lhsEx4 7 (2 * 1) * rhsAt rhsEx4 2 (2 * 1)
          + lhsAt lhsEx4 7 (2 * 1 + 1) * rhsAt rhsEx4 2 (2 * 1 + 1) ∧
      toInt32 ((pmaddwd xmm0 (pshufd (0x55 * 2) xmm1)).lane (7 % 4))
        = ((lhsAt lhsEx4 7 (2 * 1) * rhsAt rhsEx4 2 (2 * 1)
          + lhsAt lhsEx4 7 (2 * 1 + 1) * rhsAt rhsEx4 2 (2 * 1 + 1) : Nat) : Int) ∧
      lhsAt lhsEx4 7 (2 * 1) * rhsAt rhsEx4 2 (2 * 1)
        + lhsAt lhsEx4 7 (2 * 1 + 1) * rhsAt rhsEx4 2 (2 * 1 + 1) ≤ 130050 :=
  pmaddwd_lane_exact lhsEx4 rhsEx4 1 7 2 (by decide) (by decide) (by decide) (by decide)



/-! ## Faults -/

theorem pmovzxbw_error (p : Panel) (off : Nat) (e : Fault) (h : pmovzxbw p off = .error e) :
    e = .panel_read_out_of_bounds := by
  unfold pmovzxbw at h
  split_ifs at h
  cases h
  rfl

/-- The loop body can only stop at a load that leaves its panel. -/
theorem outerLoopBody_error (lhs rhs : Panel) (s : Machine) (e : Fault)
    (h : outerLoopBody lhs rhs s = .error e) : e = .panel_read_out_of_bounds := by
  unfold outerLoopBody at h
  cases h1 : pmovzxbw rhs s.rhs_ptr with
  | error e1 =>
    rw [h1] at h
    cases h
    exact pmovzxbw_error _ _ _ h1
  | ok x1 =>
    rw [h1] at h
    cases h2 : pmovzxbw lhs (s.lhs_ptr + 0x00) with
    | error e2 =>
      rw [h2] at h
      cases h
      exact pmovzxbw_error _ _ _ h2
    | ok x2 =>
      rw [h2] at h
      cases h3 : pmovzxbw lhs (s.lhs_ptr + 0x08) with
      | error e3 =>
        rw [h3] at h
        cases h
        exact pmovzxbw_error _ _ _ h3
      | ok x3 =>
        rw [h3] at h
        cases h4 : pmovzxbw lhs (s.lhs_ptr + 0x10) with
        | error e4 =>
          rw [h4] at h
          cases h
          exact pmovzxbw_error _ _ _ h4
        | ok x4 =>
          rw [h4] at h
          cases h

/-- The loop body with both windows inside the panels: it completes, moves
the pointers by 24 and 8 bytes and records its four loads. -/
theorem outerLoopBody_ok (lhs rhs : Panel) (s : Machine)
    (hl : s.lhs_ptr + 24 ≤ lhs.length) (hr : s.rhs_ptr + 8 ≤ rhs.length) :
    ∃ s1, outerLoopBody lhs rhs s = .ok s1 ∧
      s1.lhs_ptr = s.lhs_ptr + 24 ∧ s1.rhs_ptr = s.rhs_ptr + 8 ∧
      s1.steps = s.steps + 1 ∧
      s1.lhs_loads = s.lhs_loads ++ [s.lhs_ptr + 0, s.lhs_ptr + 8, s.lhs_ptr + 16] ∧
      s1.rhs_loads = s.rhs_loads ++ [s.rhs_ptr] ∧
      s1.run_depth_cells = s.run_depth_cells := by
  have b0 : s.rhs_ptr + 8 ≤ rhs.length := hr
  have b1 : s.lhs_ptr + 0 + 8 ≤ lhs.length := by omega
  have b2 : s.lhs_ptr + 8 + 8 ≤ lhs.length := by omega
  have b3 : s.lhs_ptr + 16 + 8 ≤ lhs.length := by omega
  simp only [outerLoopBody, pmovzxbw, b0, b1, b2, b3, if_true]
  exact ⟨_, rfl, rfl, rfl, rfl, rfl, rfl, rfl⟩

/-- The loop body with a window outside its panel faults. -/
theorem outerLoopBody_short (lhs rhs : Panel) (s : Machine)
    (h : lhs.length < s.lhs_ptr + 24 ∨ rhs.length < s.rhs_ptr + 8) :
    outerLoopBody lhs rhs s = .error .panel_read_out_of_bounds := by
  by_cases hr : s.rhs_ptr + 8 ≤ rhs.length
  · have hl : lhs.length < s.lhs_ptr + 24 := by omega
    have b0 : s.rhs_ptr + 8 ≤ rhs.length := hr
    have n3 : ¬ s.lhs_ptr + 16 + 8 ≤ lhs.length := by omega
    by_cases b1 : s.lhs_ptr + 0 + 8 ≤ lhs.length
    · by_cases b2 : s.lhs_ptr + 8 + 8 ≤ lhs.length
      · simp only [outerLoopBody, pmovzxbw, b0, b1, b2, n3, if_true, if_false]
      · simp only [outerLoopBody, pmovzxbw, b0, b1, b2, if_true, if_false]
    · simp only [outerLoopBody, pmovzxbw, b0, b1, if_true, if_false]
  · exact outerLoopBody_rhs_short lhs rhs s hr



theorem decq_decq_lt (c : Nat) (h : decq c ≠ 0) : decq (decq c) < decq c := by
  unfold decq at *
  split_ifs at * <;> omega

/-- The loop can only stop at a load that leaves its panel. -/
theorem outerLoop_error (lhs rhs : Panel) :
    ∀ (m : Nat) (s : Machine) (e : Fault), decq s.run_depth_cells = m →
      outerLoop lhs rhs s = .error e → e = .panel_read_out_of_bounds := by
  intro m
  induction m using Nat.strong_induction_on with
  | _ m ih =>
    intro s e hm h
    rw [outerLoop_unfold] at h
    cases hb : outerLoopBody lhs rhs s with
    | error e1 =>
      rw [hb] at h
      cases h
      exact outerLoopBody_error lhs rhs s _ hb
    | ok s1 =>
      rw [hb] at h
      by_cases hz : decq s.run_depth_cells = 0
      · simp only [hz, if_true] at h
        cases h
      · simp only [hz, if_false] at h
        exact ih (decq (decq s.run_depth_cells)) (by rw [← hm]; exact decq_decq_lt _ hz) _ e rfl h

/-- With `decq cnt = m` the loop needs `m + 1` more depth units; on panels
that end before that it faults at a load. -/
theorem outerLoop_short (lhs rhs : Panel) :
    ∀ (m k cnt : Nat), decq cnt = m →
      (lhs.length < 24 * (k + m + 1) ∨ rhs.length < 8 * (k + m + 1)) →
      outerLoop lhs rhs (stateAfter lhs rhs k cnt) = .error .panel_read_out_of_bounds := by
  intro m
  induction m with
  | zero =>
    intro k cnt hc hs
    rw [outerLoop_unfold, outerLoopBody_short lhs rhs _ (by
      show lhs.length < 24 * k + 24 ∨ rhs.length < 8 * k + 8
      omega)]
  | succ m ih =>
    intro k cnt hc hs
    by_cases hb : lhs.length < 24 * k + 24 ∨ rhs.length < 8 * k + 8
    · rw [outerLoop_unfold, outerLoopBody_short lhs rhs _ hb]
    · rw [outerLoop_step lhs rhs k cnt (by omega) (by omega), hc,
        if_neg (Nat.succ_ne_zero m)]
      exact ih (k + 1) (m + 1) (decq_succ m) (by
        have e : k + 1 + m + 1 = k + (m + 1) + 1 := by omega
        rw [e]
        exact hs)

theorem paddd_m128_cases (dst_ptr : Nat) (dst : Mem) (off : Int) (x : Xmm) :
    paddd_m128 dst_ptr dst off x = .ok (paddd (load128 dst off) x) ∨
    paddd_m128 dst_ptr dst off x = .error .misaligned_m128 := by
  unfold paddd_m128
  split_ifs
  · exact Or.inl rfl
  · exact Or.inr rfl

/-- The merge either adds the whole block or stops at a misaligned load,
leaving everything but the accumulators as it was. -/
theorem mergeDst_cases (dst_ptr : Nat) (dst : Mem) (r12 r13 : Int) (s : Machine) :
    mergeDst dst_ptr dst r12 r13 s = .ok (mergedState dst r12 r13 s) ∨
    mergeDst dst_ptr dst r12 r13 s = .error .misaligned_m128 := by
  unfold mergeDst
  simp only [bind, Except.bind]
  rcases paddd_m128_cases dst_ptr dst (0x00) s.xmm4 with h | h
  swap
  · exact Or.inr (by simp only [h])
  simp only [h]
  rcases paddd_m128_cases dst_ptr dst (0x10) s.xmm8 with h | h
  swap
  · exact Or.inr (by simp only [h])
  simp only [h]
  rcases paddd_m128_cases dst_ptr dst (0x20) s.xmm12 with h | h
  swap
  · exact Or.inr (by simp only [h])
  simp only [h]
  rcases paddd_m128_cases dst_ptr dst (0x00 + r12 * 1) s.xmm5 with h | h
  swap
  · exact Or.inr (by simp only [h])
  simp only [h]
  rcases paddd_m128_cases dst_ptr dst (0x10 + r12 * 1) s.xmm9 with h | h
  swap
  · exact Or.inr (by simp only [h])
  simp only [h]
  rcases paddd_m128_cases dst_ptr dst (0x20 + r12 * 1) s.xmm13 with h | h
  swap
  · exact Or.inr (by simp only [h])
  simp only [h]
  rcases paddd_m128_cases dst_ptr dst (0x00 + r12 * 2) s.xmm6 with h | h
  swap
  · exact Or.inr (by simp only [h])
  simp only [h]
  rcases paddd_m128_cases dst_ptr dst (0x10 + r12 * 2) s.xmm10 with h | h
  swap
  · exact Or.inr (by simp only [h])
  simp only [h]
  rcases paddd_m128_cases dst_ptr dst (0x20 + r12 * 2) s.xmm14 with h | h
  swap
  · exact Or.inr (by simp only [h])
  simp only [h]
  rcases paddd_m128_cases dst_ptr dst (0x00 + r13 * 1) s.xmm7 with h | h
  swap
  · exact Or.inr (by simp only [h])
  simp only [h]
  rcases paddd_m128_cases dst_ptr dst (0x10 + r13 * 1) s.xmm11 with h | h
  swap
  · exact Or.inr (by simp only [h])
  simp only [h]
  rcases paddd_m128_cases dst_ptr dst (0x20 + r13 * 1) s.xmm15 with h | h
  swap
  · exact Or.inr (by simp only [h])
  simp only [h]
  exact Or.inl rfl



/-- Every way a call can end once the assertion has passed: a load outside a
panel, a misaligned merge load, or completion with the accumulators of the
loop stored directly or after the merge. -/
theorem Run_cases (ndebug : Bool) (dst_ptr : Nat) (dst : Mem)
    (dst_row_stride dst_col_stride : Int) (lhs rhs : Panel) (start_depth run_depth : Int)
    (hrow : ¬ (ndebug = false ∧ dst_row_stride ≠ 1)) :
    Run ndebug dst_ptr dst dst_row_stride dst_col_stride lhs rhs start_depth run_depth
      = .error .panel_read_out_of_bounds ∨
    Run ndebug dst_ptr dst dst_row_stride dst_col_stride lhs rhs start_depth run_depth
      = .error .misaligned_m128 ∨
    ∃ s, outerLoop lhs rhs (initMachine (Int.tdiv run_depth kDepth)) = .ok s ∧
      (Run ndebug dst_ptr dst dst_row_stride dst_col_stride lhs rhs start_depth run_depth
          = .ok (outcomeOf dst (wrap64 (dst_col_stride * 4))
              (wrap64 (wrap64 (dst_col_stride * 4) + wrap64 (dst_col_stride * 4) * 2)) s) ∨
        Run ndebug dst_ptr dst dst_row_stride dst_col_stride lhs rhs start_depth run_depth
          = .ok (outcomeOf dst (wrap64 (dst_col_stride * 4))
              (wrap64 (wrap64 (dst_col_stride * 4) + wrap64 (dst_col_stride * 4) * 2))
              (mergedState dst (wrap64 (dst_col_stride * 4))
                (wrap64 (wrap64 (dst_col_stride * 4) + wrap64 (dst_col_stride * 4) * 2)) s))) := by
  cases hloop : outerLoop lhs rhs (initMachine (Int.tdiv run_depth kDepth)) with
  | error e =>
    have he := outerLoop_error lhs rhs _ _ e rfl hloop
    subst he
    left
    unfold Run
    rw [if_neg hrow]
    simp only [hloop]
  | ok s =>
    by_cases hs : start_depth = 0
    · right
      right
      refine ⟨s, rfl, Or.inl ?_⟩
      unfold Run
      rw [if_neg hrow]
      simp only [hloop, hs, if_true]
      rfl
    · rcases mergeDst_cases dst_ptr dst (wrap64 (dst_col_stride * 4))
        (wrap64 (wrap64 (dst_col_stride * 4) + wrap64 (dst_col_stride * 4) * 2)) s with hm | hm
      · right
        right
        refine ⟨s, rfl, Or.inr ?_⟩
        unfold Run
        rw [if_neg hrow]
        simp only [hloop, hs, if_false, hm]
        rfl
      · right
        left
        unfold Run
        rw [if_neg hrow]
        simp only [hloop, hs, if_false, hm]

/-! ## The assertion -/

/-- C11. Geometry contract checking: the only check of `Run` is the debug
assertion `dst_row_stride == 1`. A call ends in an assertion failure if and
only if the assertion is compiled in and `dst_row_stride ≠ 1`, whatever
`run_depth` (zero, negative and odd values included), `start_depth`,
`dst_col_stride`, the destination and the panels are. -/
theorem Run_rejects_iff_row_stride (ndebug : Bool) (dst_ptr : Nat) (dst : Mem)
    (dst_row_stride dst_col_stride : Int) (lhs rhs : Panel) (start_depth run_depth : Int) :
    Run ndebug dst_ptr dst dst_row_stride dst_col_stride lhs rhs start_depth run_depth
        = .error .assertion_failed
      ↔ (ndebug = false ∧ dst_row_stride ≠ 1) := by
  constructor
  · intro h
    by_contra hrow
    rcases Run_cases ndebug dst_ptr dst dst_row_stride dst_col_stride lhs rhs start_depth
      run_depth hrow with h1 | h1 | ⟨s, _, h1 | h1⟩ <;> rw [h1] at h <;> cases h
  · intro hrow
    unfold Run
    rw [if_pos hrow]



/-! ## Format and streaming -/

/-- C12. Tile format geometry agrees with the kernel's streaming: the declared
`Format` has depth unit 2 (the divisor of `run_depth_cells`), lhs side width
`4 * 3 = 12` and rhs side width `4 * 1 = 4`; one step of the loop advances
`lhs_ptr` by `12 * 2 = 0x18` bytes and `rhs_ptr` by `4 * 2 = 0x08` bytes, and
its three lhs loads start at the offsets 0, 8 and 16 of the three cells, whose
8-byte windows cover the 24 bytes of the step exactly once; the rhs load is
the one cell of 8 bytes. -/
theorem Format_agrees_with_streaming (lhs rhs : Panel) (s : Machine)
    (hl : s.lhs_ptr + 24 ≤ lhs.length) (hr : s.rhs_ptr + 8 ≤ rhs.length) :
    (Format.kDepth = 2 ∧ (Format.kDepth : Int) = kDepth ∧
      Format.Lhs.kDepth = 2 ∧ Format.Rhs.kDepth = 2 ∧
      Format.Lhs.Cell.kOrder = .WidthMajor ∧ Format.Rhs.Cell.kOrder = .WidthMajor ∧
      Format.Lhs.kWidth = 4 * 3 ∧ Format.kRows = 12 ∧
      Format.Rhs.kWidth = 4 * 1 ∧ Format.kCols = 4 ∧
      Format.Lhs.Cell.kSize = 8 ∧ Format.Rhs.Cell.kSize = 8 ∧
      (∀ run_depth : Nat, run_depth % 2 = 0 →
        Format.Lhs.packedSize run_depth = 12 * run_depth ∧
        Format.Rhs.packedSize run_depth = 4 * run_depth)) ∧
    (∃ s1, outerLoopBody lhs rhs s = .ok s1 ∧
      s1.lhs_ptr = s.lhs_ptr + Format.kRows * Format.kDepth ∧
      s1.lhs_ptr = s.lhs_ptr + 0x18 ∧
      s1.rhs_ptr = s.rhs_ptr + Format.kCols * Format.kDepth ∧
      s1.rhs_ptr = s.rhs_ptr + 0x08 ∧
      s1.lhs_loads = s.lhs_loads
        ++ (List.range Format.Lhs.kCells).map (fun c => s.lhs_ptr + c * Format.Lhs.Cell.kSize) ∧
      s1.lhs_loads = s.lhs_loads ++ [s.lhs_ptr + 0, s.lhs_ptr + 8, s.lhs_ptr + 16] ∧
      s1.rhs_loads = s.rhs_loads
        ++ (List.range Format.Rhs.kCells).map (fun c => s.rhs_ptr + c * Format.Rhs.Cell.kSize) ∧
      s1.rhs_loads = s.rhs_loads ++ [s.rhs_ptr]) ∧
    (∀ b : Nat, b < 24 → ∃! o, o ∈ [0, 8, 16] ∧ o ≤ b ∧ b < o + 8) ∧
    (∀ o : Nat, o ∈ [0, 8, 16] → o + 8 ≤ 24) := by
  refine ⟨⟨rfl, rfl, rfl, rfl, rfl, rfl, rfl, rfl, rfl, rfl, rfl, rfl, ?_⟩, ?_, ?_, ?_⟩
  · intro run_depth hrd
    have e1 : Format.Lhs.packedSize run_depth = 12 * 2 * (run_depth / 2) := rfl
    have e2 : Format.Rhs.packedSize run_depth = 4 * 2 * (run_depth / 2) := rfl
    rw [e1, e2]
    omega
  · obtain ⟨s1, h, h1, h2, _, h4, h5, _⟩ := outerLoopBody_ok lhs rhs s hl hr
    refine ⟨s1, h, h1, h1, h2, h2, ?_, h4, ?_, h5⟩
    · rw [h4]
      simp [Format, CellFormat.kSize, List.range_succ]
    · rw [h5]
      simp [Format, CellFormat.kSize, List.range_succ]
  · intro b hb
    refine ⟨8 * (b / 8), ⟨?_, by omega, by omega⟩, ?_⟩
    · have h3 : b / 8 = 0 ∨ b / 8 = 1 ∨ b / 8 = 2 := by omega
      rcases h3 with h | h | h <;> rw [h] <;> simp
    · rintro o ⟨ho, h1, h2⟩
      simp only [List.mem_cons, List.mem_singleton, List.not_mem_nil, or_false] at ho
      omega
  · intro o ho
    simp only [List.mem_cons, List.mem_singleton, List.not_mem_nil, or_false] at ho
    omega

theorem Format_agrees_with_streaming_witness :
    ∃ s1, outerLoopBody lhsEx rhsEx (initMachine 1) = .ok s1 ∧
      s1.lhs_ptr = (initMachine 1).lhs_ptr + Format.kRows * Format.kDepth ∧
      s1.lhs_ptr = (initMachine 1).lhs_ptr + 0x18 ∧
      s1.rhs_ptr = (initMachine 1).rhs_ptr + Format.kCols * Format.kDepth ∧
      s1.rhs_ptr = (initMachine 1).rhs_ptr + 0x08 ∧
      s1.lhs_loads = (initMachine 1).lhs_loads
        ++ (List.range Format.Lhs.kCells).map
            (fun c => (initMachine 1).lhs_ptr + c * Format.Lhs.Cell.kSize) ∧
      s1.lhs_loads = (initMachine 1).lhs_loads
        ++ [(initMachine 1).lhs_ptr + 0, (initMachine 1).lhs_ptr + 8,
            (initMachine 1).lhs_ptr + 16] ∧
      s1.rhs_loads = (initMachine 1).rhs_loads
        ++ (List.range Format.Rhs.kCells).map
            (fun c => (initMachine 1).rhs_ptr + c * Format.Rhs.Cell.kSize) ∧
      s1.rhs_loads = (initMachine 1).rhs_loads ++ [(initMachine 1).rhs_ptr] :=
  (Format_agrees_with_streaming lhsEx rhsEx (initMachine 1) (by decide) (by decide)).2.1



/-! ## Range of the sums -/

theorem refProduct_le (lhs rhs : Panel) (i j : Nat) :
    ∀ d : Nat, refProduct lhs rhs i j d ≤ 65025 * d := by
  intro d
  induction d with
  | zero => exact Nat.le_refl 0
  | succ d ih =>
    show refProduct lhs rhs i j d + lhsAt lhs i d * rhsAt rhs j d ≤ 65025 * (d + 1)
    have h1 : lhsAt lhs i d < 256 := byteAt_lt _ _
    have h2 : rhsAt rhs j d < 256 := byteAt_lt _ _
    have h3 : lhsAt lhs i d * rhsAt rhs j d ≤ 255 * 255 :=
      Nat.mul_le_mul (by omega) (by omega)
    omega

theorem byteAt_fullPanel (n o : Nat) (h : o < n) : byteAt (fullPanel n) o = 255 := by
  unfold byteAt fullPanel
  rw [List.getElem?_replicate]
  simp only [h, if_true]
  rfl

theorem refProduct_fullPanel (nl nr i j : Nat) (hi : i < 12) (hj : j < 4) :
    ∀ d : Nat, 24 * ((d + 1) / 2) ≤ nl → 8 * ((d + 1) / 2) ≤ nr →
      refProduct (fullPanel nl) (fullPanel nr) i j d = 65025 * d := by
  intro d
  induction d with
  | zero => intro _ _; rfl
  | succ d ih =>
    intro hl hr
    show refProduct _ _ i j d + lhsAt _ i d * rhsAt _ j d = 65025 * (d + 1)
    rw [ih (by omega) (by omega)]
    unfold lhsAt rhsAt
    rw [byteAt_fullPanel _ _ (by omega), byteAt_fullPanel _ _ (by omega)]
    omega

theorem toInt32_of_lt (d : Nat) (h : d < 2147483648) : toInt32 d = (d : Int) := by
  unfold toInt32
  have : d % 4294967296 = d := by omega
  rw [this, if_pos h]

theorem storeList_cases (L : List (Xmm × Int)) (dst : Mem) (idx : Int) :
    storeList L dst idx = dst idx ∨
    ∃ p, p ∈ L ∧ ∃ l, l < 4 ∧ storeList L dst idx = toInt32 (p.1.lane l) := by
  induction L using List.reverseRecOn with
  | nil => exact Or.inl rfl
  | append_singleton L a ih =>
    rw [storeList_snoc]
    by_cases hw : a.2 / 4 ≤ idx ∧ idx < a.2 / 4 + 4
    · right
      refine ⟨a, by simp, (idx - a.2 / 4).toNat, by omega, ?_⟩
      exact movdqu_hit _ (by omega) (by omega)
    · have hm : idx < a.2 / 4 ∨ a.2 / 4 + 4 ≤ idx := by omega
      rw [movdqu_miss hm]
      rcases ih with h | ⟨p, hp, l, hl, h⟩
      · exact Or.inl h
      · exact Or.inr ⟨p, by simp [hp], l, hl, h⟩

/-- Whatever the strides, an element after the stores is either untouched or
a lane of one of the twelve accumulators. -/
theorem storeDst_cases (dst : Mem) (r12 r13 : Int) (s : Machine) (idx : Int) :
    storeDst dst r12 r13 s idx = dst idx ∨
    ∃ g c l, g < 3 ∧ c < 4 ∧ l < 4 ∧
      storeDst dst r12 r13 s idx = toInt32 ((s.reg g c).lane l) := by
  rw [storeDst_eq_storeList dst r12 r13 s s]
  rcases storeList_cases _ dst idx with h | ⟨p, hp, l, hl, h⟩
  · exact Or.inl h
  · right
    simp only [blockSlots, List.map_cons, List.map_nil, List.mem_cons, List.mem_singleton,
      List.not_mem_nil, or_false] at hp
    rcases hp with hp | hp | hp | hp | hp | hp | hp | hp | hp | hp | hp | hp <;>
      rw [hp] at h
    · exact ⟨0, 0, l, by omega, by omega, hl, h⟩
    · exact ⟨1, 0, l, by omega, by omega, hl, h⟩
    · exact ⟨2, 0, l, by omega, by omega, hl, h⟩
    · exact ⟨0, 1, l, by omega, by omega, hl, h⟩
    · exact ⟨1, 1, l, by omega, by omega, hl, h⟩
    · exact ⟨2, 1, l, by omega, by omega, hl, h⟩
    · exact ⟨0, 2, l, by omega, by omega, hl, h⟩
    · exact ⟨1, 2, l, by omega, by omega, hl, h⟩
    · exact ⟨2, 2, l, by omega, by omega, hl, h⟩
    · exact ⟨0, 3, l, by omega, by omega, hl, h⟩
    · exact ⟨1, 3, l, by omega, by omega, hl, h⟩
    · exact ⟨2, 3, l, by omega, by omega, hl, h⟩



/-- With all panel bytes 255 and `run_depth = 33026` every sum is 2147515650 and
the stored element is the wrapped value. -/
theorem Run_fullPanel_wraps (ndebug : Bool) (dst_ptr : Nat) (dst : Mem) :
    ∃ out, Run ndebug dst_ptr dst 1 12 (fullPanel (12 * 33026)) (fullPanel (4 * 33026)) 0 33026
        = .ok out ∧
      ∀ i j : Nat, i < 12 → j < 4 →
        refProduct (fullPanel (12 * 33026)) (fullPanel (4 * 33026)) i j 33026 = 2147515650 ∧
        (2147483647 : Int) < 2147515650 ∧
        out.dst ((i : Int) + (j : Int) * 12) = -2147451646 := by
  have hlen1 : 12 * (33026 : Int).toNat ≤ (fullPanel (12 * 33026)).length := by
    unfold fullPanel
    rw [List.length_replicate]
    exact Nat.le_refl _
  have hlen2 : 4 * (33026 : Int).toNat ≤ (fullPanel (4 * 33026)).length := by
    unfold fullPanel
    rw [List.length_replicate]
    exact Nat.le_refl _
  obtain ⟨out, hout, hval⟩ := Run_overwrite_block ndebug dst_ptr dst 12
      (fullPanel (12 * 33026)) (fullPanel (4 * 33026)) 33026 (by omega) (by omega)
      (by unfold IsInt; omega) (by unfold IsInt; omega) (by norm_num) hlen1 hlen2
  refine ⟨out, hout, ?_⟩
  intro i j hi12 hj4
  have hp := refProduct_fullPanel (12 * 33026) (4 * 33026) i j hi12 hj4 33026 (by omega) (by omega)
  refine ⟨by rw [hp], by omega, ?_⟩
  rw [hval i j hi12 hj4]
  have e : (33026 : Int).toNat = 33026 := by omega
  rw [e, hp]
  unfold toInt32
  norm_num

/-- C13. No wrap-around within the depth bound: for `run_depth` a positive
multiple of 2 with `run_depth ≤ 33024`, a call with `start_depth = 0`
completes and every element it writes is the exact sum of the products, not
reduced modulo `2^32`, between 0 and `65025 * run_depth ≤ 2^31 - 1`: at
`i + j * dst_col_stride` when the columns do not overlap, and in any case
every element is either untouched or such an exact sum. The bound is tight:
for `run_depth = 33026` and all panel bytes 255 the exact sum is 2147515650,
above `2^31 - 1`, and the stored value is the wrapped -2147451646. -/
theorem Run_exact_within_depth_bound (ndebug : Bool) (dst_ptr : Nat) (dst : Mem)
    (dst_col_stride : Int) (lhs rhs : Panel) (run_depth : Int)
    (hpos : 0 < run_depth) (heven : run_depth % 2 = 0) (hmax : run_depth ≤ 33024)
    (hcs : IsInt dst_col_stride)
    (hl : 12 * run_depth.toNat ≤ lhs.length) (hr : 4 * run_depth.toNat ≤ rhs.length) :
    (∃ out, Run ndebug dst_ptr dst 1 dst_col_stride lhs rhs 0 run_depth = .ok out ∧
      65025 * run_depth ≤ 2147483647 ∧
      (∀ i j : Nat, i < 12 → j < 4 →
        (0 : Int) ≤ (refProduct lhs rhs i j run_depth.toNat : Int) ∧
        (refProduct lhs rhs i j run_depth.toNat : Int) ≤ 65025 * run_depth) ∧
      (12 ≤ |dst_col_stride| → ∀ i j : Nat, i < 12 → j < 4 →
        out.dst ((i : Int) + (j : Int) * dst_col_stride)
          = (refProduct lhs rhs i j run_depth.toNat : Int)) ∧
      (∀ idx : Int, out.dst idx = dst idx ∨
        ∃ i j : Nat, i < 12 ∧ j < 4 ∧
          out.dst idx = (refProduct lhs rhs i j run_depth.toNat : Int))) ∧
    (∃ out, Run ndebug dst_ptr dst 1 12 (fullPanel (12 * 33026)) (fullPanel (4 * 33026)) 0 33026
        = .ok out ∧
      ∀ i j : Nat, i < 12 → j < 4 →
        refProduct (fullPanel (12 * 33026)) (fullPanel (4 * 33026)) i j 33026 = 2147515650 ∧
        (2147483647 : Int) < 2147515650 ∧
        out.dst ((i : Int) + (j : Int) * 12) = -2147451646) := by
  have hi : IsInt run_depth := by unfold IsInt; omega
  have hn : 2 * (run_depth / 2).toNat = run_depth.toNat := by omega
  have hbound : ∀ i j : Nat, refProduct lhs rhs i j run_depth.toNat < 2147483648 := by
    intro i j
    have := refProduct_le lhs rhs i j run_depth.toNat
    omega
  have hrun := Run_overwrite_eq ndebug dst_ptr dst dst_col_stride lhs rhs run_depth (by omega)
    hi hcs (by omega) (by omega)
  refine ⟨⟨_, hrun, by omega, ?_, ?_, ?_⟩, ?_⟩
  · intro i j _ _
    have := refProduct_le lhs rhs i j run_depth.toNat
    omega
  · intro hno i j hi12 hj4
    obtain ⟨out, hout, hval⟩ := Run_overwrite_block ndebug dst_ptr dst dst_col_stride lhs rhs
      run_depth hpos heven hi hcs hno hl hr
    rw [hrun] at hout
    cases hout
    rw [hval i j hi12 hj4, toInt32_mod, toInt32_of_lt _ (hbound i j)]
  · intro idx
    rcases storeDst_cases dst (4 * dst_col_stride) (12 * dst_col_stride)
      (stateAfter lhs rhs (run_depth / 2).toNat 0) idx with h | ⟨g, c, l, hg, hc, hl4, h⟩
    · exact Or.inl h
    · right
      refine ⟨4 * g + l, c, by omega, hc, ?_⟩
      show storeDst dst (4 * dst_col_stride) (12 * dst_col_stride) _ idx = _
      rw [h, stateAfter_reg_lane lhs rhs _ _ g c l hg hc hl4, hn, toInt32_mod,
        toInt32_of_lt _ (hbound _ _)]
  · exact Run_fullPanel_wraps ndebug dst_ptr dst

theorem Run_exact_within_depth_bound_witness :
    ∃ out, Run false 4100 dstEx 1 5 lhsEx4 rhsEx4 0 4 = .ok out ∧
      65025 * (4 : Int) ≤ 2147483647 ∧
      (∀ i j : Nat, i < 12 → j < 4 →
        (0 : Int) ≤ (refProduct lhsEx4 rhsEx4 i j (4 : Int).toNat : Int) ∧
        (refProduct lhsEx4 rhsEx4 i j (4 : Int).toNat : Int) ≤ 65025 * 4) ∧
      ((12 : Int) ≤ |5| → ∀ i j : Nat, i < 12 → j < 4 →
        out.dst ((i : Int) + (j : Int) * 5)
          = (refProduct lhsEx4 rhsEx4 i j (4 : Int).toNat : Int)) ∧
      (∀ idx : Int, out.dst idx = dstEx idx ∨
        ∃ i j : Nat, i < 12 ∧ j < 4 ∧
          out.dst idx = (refProduct lhsEx4 rhsEx4 i j (4 : Int).toNat : Int)) :=
  (Run_exact_within_depth_bound false 4100 dstEx 5 lhsEx4 rhsEx4 4 (by decide) (by decide)
    (by decide) (by decide) (by decide) (by decide)).1



/-! ## Depths outside the contract -/

theorem initMachine_zero_cells (lhs rhs : Panel) (run_depth : Int)
    (hrd : run_depth = 0 ∨ run_depth = 1) :
    initMachine (Int.tdiv run_depth kDepth) = stateAfter lhs rhs 0 0 := by
  rcases hrd with h | h <;> rw [h] <;> rfl

/-- C14. A `run_depth` of 0 or 1 is not a no-op: `run_depth_cells` is 0, the
body runs before the counter is tested, so one step is made that reads lhs
bytes `[0, 24)` and rhs bytes `[0, 8)` whatever the declared depth; `decq` then
takes the counter from 0 to `2^64 - 1`, so the loop asks for `2^64` trips: on
panels shorter than `2^64` depth units (empty ones among them) the call ends
in a read outside a panel, and a call that does complete has made `2^64`
steps, never zero. -/
theorem Run_zero_depth_not_noop (ndebug : Bool) (dst_ptr : Nat) (dst : Mem)
    (dst_col_stride : Int) (lhs rhs : Panel) (start_depth run_depth : Int)
    (hrd : run_depth = 0 ∨ run_depth = 1) :
    Int.tdiv run_depth kDepth = 0 ∧
    (initMachine (Int.tdiv run_depth kDepth)).run_depth_cells = 0 ∧
    decq (initMachine (Int.tdiv run_depth kDepth)).run_depth_cells = 18446744073709551615 ∧
    (24 ≤ lhs.length → 8 ≤ rhs.length →
      ∃ s1, outerLoopBody lhs rhs (initMachine (Int.tdiv run_depth kDepth)) = .ok s1 ∧
        s1.steps = 1 ∧ s1.lhs_loads = [0, 8, 16] ∧ s1.rhs_loads = [0] ∧
        decq s1.run_depth_cells ≠ 0) ∧
    ((lhs.length < 24 * 18446744073709551616 ∨ rhs.length < 8 * 18446744073709551616) →
      Run ndebug dst_ptr dst 1 dst_col_stride lhs rhs start_depth run_depth
        = .error .panel_read_out_of_bounds) ∧
    (∀ out, Run ndebug dst_ptr dst 1 dst_col_stride lhs rhs start_depth run_depth = .ok out →
      out.steps = 18446744073709551616) := by
  have hinit := initMachine_zero_cells lhs rhs run_depth hrd
  have hrow : ¬ (ndebug = false ∧ (1 : Int) ≠ 1) := fun h => h.2 rfl
  have hshort : (lhs.length < 24 * 18446744073709551616 ∨
      rhs.length < 8 * 18446744073709551616) →
      outerLoop lhs rhs (initMachine (Int.tdiv run_depth kDepth))
        = .error .panel_read_out_of_bounds := by
    intro h
    rw [hinit]
    exact outerLoop_short lhs rhs 18446744073709551615 0 0 rfl (by omega)
  refine ⟨by rcases hrd with h | h <;> rw [h] <;> rfl, by rw [hinit]; rfl, by rw [hinit]; rfl,
    ?_, ?_, ?_⟩
  · intro hl hr
    rw [hinit]
    obtain ⟨s1, h, _, _, h3, h4, h5, h6⟩ := outerLoopBody_ok lhs rhs (stateAfter lhs rhs 0 0)
      (by show 24 * 0 + 24 ≤ lhs.length; omega) (by show 8 * 0 + 8 ≤ rhs.length; omega)
    refine ⟨s1, h, h3, h4, h5, ?_⟩
    rw [h6]
    show decq 0 ≠ 0
    decide
  · intro h
    exact Run_of_loop_error ndebug dst_ptr dst 1 dst_col_stride lhs rhs start_depth run_depth _
      (Or.inr rfl) (hshort h)
  · intro out hout
    by_cases hlen : lhs.length < 24 * 18446744073709551616 ∨
        rhs.length < 8 * 18446744073709551616
    · rw [Run_of_loop_error ndebug dst_ptr dst 1 dst_col_stride lhs rhs start_depth run_depth _
        (Or.inr rfl) (hshort hlen)] at hout
      cases hout
    · have hloop := outerLoop_stateAfter lhs rhs 18446744073709551615 0 0 rfl (by omega)
        (by omega)
      rw [← hinit] at hloop
      rcases Run_cases ndebug dst_ptr dst 1 dst_col_stride lhs rhs start_depth run_depth hrow
        with h1 | h1 | ⟨s, hs, h1 | h1⟩
      · rw [h1] at hout
        cases hout
      · rw [h1] at hout
        cases hout
      · rw [h1] at hout
        rw [hloop] at hs
        cases hout
        cases hs
        show (0 + 18446744073709551615 + 1 : Nat) = 18446744073709551616
        norm_num
      · rw [h1] at hout
        rw [hloop] at hs
        cases hout
        cases hs
        show (0 + 18446744073709551615 + 1 : Nat) = 18446744073709551616
        norm_num

theorem Run_zero_depth_not_noop_witness :
    Run false 4096 dstEx 1 12 [] [] 0 0 = .error .panel_read_out_of_bounds :=
  (Run_zero_depth_not_noop false 4096 dstEx 12 [] [] 0 0 (Or.inl rfl)).2.2.2.2.1
    (Or.inl (by decide))



/-- The result of a call depends on `run_depth` only through
`run_depth / kDepth`. -/
theorem Run_congr_cells (ndebug : Bool) (dst_ptr : Nat) (dst : Mem)
    (dst_row_stride dst_col_stride : Int) (lhs rhs : Panel) (start_depth d d' : Int)
    (h : Int.tdiv d kDepth = Int.tdiv d' kDepth) :
    Run ndebug dst_ptr dst dst_row_stride dst_col_stride lhs rhs start_depth d
      = Run ndebug dst_ptr dst dst_row_stride dst_col_stride lhs rhs start_depth d' := by
  simp only [Run, h]

/-- C15. An odd `run_depth` silently drops the last depth element: for every
odd `run_depth ≥ 3` and all panels, strides, `start_depth` and destinations,
the call gives exactly the result of the call with `run_depth - 1`, because
`run_depth_cells` is the truncated quotient; so on panels that hold
`run_depth - 1` depth elements, in overwrite mode with columns that do not
overlap, the sums run over the first `run_depth - 1` depth elements only. -/
theorem Run_odd_depth_drops_last (ndebug : Bool) (dst_ptr : Nat) (dst : Mem)
    (dst_row_stride dst_col_stride : Int) (lhs rhs : Panel) (start_depth run_depth : Int)
    (h3 : 3 ≤ run_depth) (hodd : run_depth % 2 = 1) :
    Int.tdiv run_depth kDepth = Int.tdiv (run_depth - 1) kDepth ∧
    Run ndebug dst_ptr dst dst_row_stride dst_col_stride lhs rhs start_depth run_depth
      = Run ndebug dst_ptr dst dst_row_stride dst_col_stride lhs rhs start_depth
          (run_depth - 1) ∧
    (IsInt run_depth → IsInt dst_col_stride → 12 ≤ |dst_col_stride| →
      12 * (run_depth - 1).toNat ≤ lhs.length → 4 * (run_depth - 1).toNat ≤ rhs.length →
      ∃ out, Run ndebug dst_ptr dst 1 dst_col_stride lhs rhs 0 run_depth = .ok out ∧
        ∀ i j : Nat, i < 12 → j < 4 →
          out.dst ((i : Int) + (j : Int) * dst_col_stride)
            = toInt32 (refProduct lhs rhs i j (run_depth - 1).toNat % 4294967296)) := by
  have hcells : Int.tdiv run_depth kDepth = Int.tdiv (run_depth - 1) kDepth := by
    unfold kDepth
    rw [Int.tdiv_eq_ediv (by omega) (by omega), Int.tdiv_eq_ediv (by omega) (by omega)]
    omega
  refine ⟨hcells, Run_congr_cells ndebug dst_ptr dst dst_row_stride dst_col_stride lhs rhs
    start_depth run_depth (run_depth - 1) hcells, ?_⟩
  intro hi hcs hno hl hr
  rw [Run_congr_cells ndebug dst_ptr dst 1 dst_col_stride lhs rhs 0 run_depth (run_depth - 1)
    hcells]
  exact Run_overwrite_block ndebug dst_ptr dst dst_col_stride lhs rhs (run_depth - 1)
    (by omega) (by omega) (by unfold IsInt at *; omega) hcs hno hl hr

theorem Run_odd_depth_drops_last_witness :
    Run false 4100 dstEx 1 7 lhsEx4 rhsEx4 0 5 = Run false 4100 dstEx 1 7 lhsEx4 rhsEx4 0 (5 - 1) :=
  (Run_odd_depth_drops_last false 4100 dstEx 1 7 lhsEx4 rhsEx4 0 5 (by decide)
    (by decide)).2.1

/-! ## The row stride -/

/-- C16. The store ignores `dst_row_stride`: with the assertion compiled out,
the result of a call is the same for every `dst_row_stride` as for 1, so
accumulator `(i, j)` goes to index `i + j * dst_col_stride` (rows one element
apart); in overwrite mode on valid panels with columns that do not overlap
that index holds the sum for `(i, j)`, and for `dst_row_stride ≠ 1` and
`i ≥ 1` it is not the index `i * dst_row_stride + j * dst_col_stride`. -/
theorem Run_ignores_row_stride (dst_ptr : Nat) (dst : Mem)
    (dst_row_stride dst_col_stride : Int) (lhs rhs : Panel) (start_depth run_depth : Int)
    (hpos : 0 < run_depth) (heven : run_depth % 2 = 0) (hi : IsInt run_depth)
    (hcs : IsInt dst_col_stride) (hno : 12 ≤ |dst_col_stride|)
    (hl : 12 * run_depth.toNat ≤ lhs.length) (hr : 4 * run_depth.toNat ≤ rhs.length) :
    Run true dst_ptr dst dst_row_stride dst_col_stride lhs rhs start_depth run_depth
      = Run true dst_ptr dst 1 dst_col_stride lhs rhs start_depth run_depth ∧
    ∃ out, Run true dst_ptr dst dst_row_stride dst_col_stride lhs rhs 0 run_depth = .ok out ∧
      ∀ i j : Nat, i < 12 → j < 4 →
        out.dst ((i : Int) + (j : Int) * dst_col_stride)
          = toInt32 (refProduct lhs rhs i j run_depth.toNat % 4294967296) ∧
        (dst_row_stride ≠ 1 → 1 ≤ i →
          (i : Int) + (j : Int) * dst_col_stride
            ≠ (i : Int) * dst_row_stride + (j : Int) * dst_col_stride) := by
  have hsame : ∀ sd : Int,
      Run true dst_ptr dst dst_row_stride dst_col_stride lhs rhs sd run_depth
        = Run true dst_ptr dst 1 dst_col_stride lhs rhs sd run_depth := by
    intro sd
    simp only [Run, Bool.true_eq_false, false_and, if_false]
  refine ⟨hsame start_depth, ?_⟩
  rw [hsame 0]
  obtain ⟨out, hout, hval⟩ := Run_overwrite_block true dst_ptr dst dst_col_stride lhs rhs
    run_depth hpos heven hi hcs hno hl hr
  refine ⟨out, hout, fun i j hi12 hj4 => ⟨hval i j hi12 hj4, ?_⟩⟩
  intro hrs h1 heq
  have hz : (i : Int) * (dst_row_stride - 1) = 0 := by linear_combination (-1 : Int) * heq
  rcases mul_eq_zero.mp hz with h0 | h0
  · omega
  · exact hrs (by omega)

theorem Run_ignores_row_stride_witness :
    Run true 4096 dstEx 2 12 lhsEx rhsEx 0 2 = Run true 4096 dstEx 1 12 lhsEx rhsEx 0 2 ∧
    ∃ out, Run true 4096 dstEx 2 12 lhsEx rhsEx 0 2 = .ok out ∧
      ∀ i j : Nat, i < 12 → j < 4 →
        out.dst ((i : Int) + (j : Int) * 12)
          = toInt32 (refProduct lhsEx rhsEx i j (2 : Int).toNat % 4294967296) ∧
        ((2 : Int) ≠ 1 → 1 ≤ i →
          (i : Int) + (j : Int) * 12 ≠ (i : Int) * 2 + (j : Int) * 12) :=
  Run_ignores_row_stride 4096 dstEx 2 12 lhsEx rhsEx 0 2 (by decide) (by decide) (by decide)
    (by decide) (by decide) (by decide) (by decide)


end gemmlowp
